import Mathlib

/-!
# jsonclient: a shallow embedding of `pkg/util/jsonclient/jsonclient.go`

The Go package is a thin wrapper over `net/http` and `encoding/json`.  The
embedding keeps the control flow of `parseResponse`, `Client.Get` and
`Client.Post` statement by statement.  The collaborators from the Go standard
library (the HTTP transport, the JSON codec, the URL parser, the body reader)
are parameters: records of functions that return what the library call
returns.  Every function of the package returns an `Outcome`: the returned
`error`, the value behind the `response` pointer after the call, and the list
of library calls that were made, in order.

Conventions

* A Go `string` is a sequence of bytes (`GoString`); a `[]byte` is either the
  nil slice or a sequence of bytes (`ByteSlice`).
* A Go `error` is `Option GoError`; `none` is `nil`.
* Pointers held in fields (`Client.HTTPClient`, `Response.Body`) are taken to
  be non-nil, as `NewClient` and `net/http` produce them.
-/

namespace jsonclient

/-! ## Go values -/

/-- A Go `string`: an immutable sequence of bytes. -/
abbrev GoString := List UInt8

/-- A Go `[]byte`: `none` is the nil slice, `some bs` a slice holding `bs`. -/
abbrev ByteSlice := Option (List UInt8)

/-- UTF-8 encoding of one character, as the Go compiler stores string literals. -/
def utf8 (c : Char) : List UInt8 :=
  let n := c.toNat
  if n < 0x80 then [UInt8.ofNat n]
  else if n < 0x800 then [UInt8.ofNat (0xC0 + n / 0x40), UInt8.ofNat (0x80 + n % 0x40)]
  else if n < 0x10000 then
    [UInt8.ofNat (0xE0 + n / 0x1000), UInt8.ofNat (0x80 + n / 0x40 % 0x40),
     UInt8.ofNat (0x80 + n % 0x40)]
  else
    [UInt8.ofNat (0xF0 + n / 0x40000), UInt8.ofNat (0x80 + n / 0x1000 % 0x40),
     UInt8.ofNat (0x80 + n / 0x40 % 0x40), UInt8.ofNat (0x80 + n % 0x40)]

/-- A Go string literal. -/
def lit (s : String) : GoString :=
  s.toList.flatMap utf8

/-- The Go conversion `string(b)` of a byte slice; the nil slice converts to `""`. -/
def string (b : ByteSlice) : GoString :=
  match b with
  | none => []
  | some bs => bs

/-- An error value made by a standard-library collaborator (transport, JSON
codec, URL parser, body reader).  `kind` stands for its dynamic type and
identity, `text` is what its `Error()` method returns. -/
structure ExtError where
  kind : Nat
  text : GoString
deriving DecidableEq, Repr

/-- Modelled from the spec: the struct `Error` (the ResponseError), whose
declaration is in a file of the package other than `jsonclient.go`.  By the spec
it carries the numeric status code, the raw response body text and the
underlying cause; these are the fields `StatusCode`, `Body` and `err` that
`parseResponse` sets, here the constructor `Error`.  The other constructors are
the remaining `error` values the package returns:

* `ext e`: a collaborator's error, passed on as it is;
* `errorf msg`: the value of `fmt.Errorf(format, arg)` with a `%v` verb, whose
  text is `msg`. -/
inductive GoError where
  | ext (e : ExtError)
  | errorf (msg : GoString)
  | Error (StatusCode : Int) (Body : GoString) (err : GoError)
deriving DecidableEq, Repr

/-- The call `fmt.Errorf(format, arg)` for a format `"<text>%v"`: `fmt` is the
text before the verb, `arg` the default rendering of the argument (a string is
rendered as it is, an error as its `Error()` text). -/
def Errorf (fmt arg : GoString) : GoError :=
  GoError.errorf (fmt ++ arg)

/-! ## net/http values -/

/-- The `http.Header` map: canonical key to list of values, as an association
list with at most one entry per key. -/
abbrev Header := List (GoString × List GoString)

/-- The call `h.Set(key, value)`: the entry of `key` is replaced by the single
value.  The keys this package sets are already in canonical MIME form. -/
def Header.Set (h : Header) (key value : GoString) : Header :=
  (key, [value]) :: h.filter (fun kv => kv.1 != key)

/-- The map lookup `h[key]`: `none` when the header is absent. -/
def Header.Values (h : Header) (key : GoString) : Option (List GoString) :=
  (h.find? (fun kv => kv.1 == key)).map Prod.snd

/-- The fields of `http.Request` this package sets. -/
structure Request where
  Method : GoString
  URL : GoString
  Header : Header
  Body : List UInt8
deriving DecidableEq, Repr

/-- The response body stream, given by what `ioutil.ReadAll` returns for it:
the bytes read and the read error (`none` when the stream ended cleanly). -/
structure ReadCloser where
  data : ByteSlice
  err : Option ExtError
deriving DecidableEq, Repr

/-- The fields of `http.Response` this package reads. -/
structure Response where
  Status : GoString
  StatusCode : Int
  Body : ReadCloser
deriving DecidableEq, Repr

/-- The `*http.Client` held by a `Client`: its `Get` and `Do` methods. -/
structure HTTPClient where
  Get : GoString → Except ExtError Response
  Do : Request → Except ExtError Response

/-- The standard-library functions the package calls, for a request type `Req`
and a response target type `T`.

* `Marshal v` is `json.Marshal(v)`.
* `MarshalIndent v pfx indent` is `json.MarshalIndent(v, pfx, indent)`.
* `Unmarshal data target` is `json.Unmarshal(data, &target)`: the value of the
  target afterwards and the returned error.
* `urlParse url` is the error of `url.Parse(url)`, if any. -/
structure Lib (Req T : Type) where
  Marshal : Req → Except ExtError (List UInt8)
  MarshalIndent : Req → GoString → GoString → Except ExtError (List UInt8)
  Unmarshal : ByteSlice → T → T × Option ExtError
  urlParse : GoString → Option ExtError

/-- A library call made by the package. -/
inductive Call where
  | MarshalIndent (pfx indent : GoString)
  | NewRequest (method url : GoString) (body : List UInt8)
  | ClientGet (url : GoString)
  | ClientDo (req : Request)
  | ReadAll
  | Unmarshal (data : ByteSlice)
  | Close
deriving DecidableEq, Repr

/-- What a call of the package leaves behind: the returned `error`, the value
behind the `response` pointer, and the library calls made, in order. -/
structure Outcome (T : Type) where
  err : Option GoError
  target : T
  calls : List Call
deriving DecidableEq, Repr

/-- The call `http.NewRequest(method, url, bytes.NewReader(body))`: the URL is
parsed; on success the request has the method, the URL, an empty header map and
the body.  (The method check of `http.NewRequest` is passed by `POST`, the only
method this package uses.) -/
def NewRequest {Req T : Type} (lib : Lib Req T) (method url : GoString) (body : List UInt8) :
    Except ExtError Request :=
  match lib.urlParse url with
  | some e => Except.error e
  | none => Except.ok { Method := method, URL := url, Header := [], Body := body }

/-! ## The package -/

/-- The constant `ContentType`. -/
def ContentType : GoString := lit "application/json"

/-- The constant `http.MethodPost`. -/
def MethodPost : GoString := lit "POST"

/-- The struct `Client`. -/
structure Client where
  HTTPClient : HTTPClient
  AuthorizationHeader : GoString
  Indent : GoString

/-- The function `NewClient`: only the transport is set, to `http.DefaultClient`. -/
def NewClient (httpDefaultClient : HTTPClient) : Client :=
  { HTTPClient := httpDefaultClient, AuthorizationHeader := [], Indent := [] }

/-- The function `parseResponse`. -/
def parseResponse {Req T : Type} (lib : Lib Req T) (res : Response) (response : T) : Outcome T :=
  -- body, err := ioutil.ReadAll(res.Body)
  let body : ByteSlice := res.Body.data
  let err : Option GoError := res.Body.err.map GoError.ext
  -- if res.StatusCode >= 400 { err = fmt.Errorf("got HTTP %v", res.Status) }
  let err : Option GoError :=
    if res.StatusCode ≥ 400 then some (Errorf (lit "got HTTP ") res.Status) else err
  -- if err == nil { err = json.Unmarshal(body, response) }
  let decoded : T × Option GoError × List Call :=
    match err with
    | none =>
      let r := lib.Unmarshal body response
      (r.1, r.2.map GoError.ext, [Call.Unmarshal body])
    | some e => (response, some e, [])
  let response := decoded.1
  let err := decoded.2.1
  match err with
  | some e =>
    -- if body == nil { body = []byte{} }
    let body : ByteSlice := if body = none then some [] else body
    -- return Error{StatusCode: res.StatusCode, Body: string(body), err: err}
    { err := some (GoError.Error res.StatusCode (string body) e),
      target := response,
      -- defer res.Body.Close()
      calls := [Call.ReadAll] ++ decoded.2.2 ++ [Call.Close] }
  | none =>
    -- return nil
    { err := none, target := response, calls := [Call.ReadAll] ++ decoded.2.2 ++ [Call.Close] }

/-- The method `Client.Get`. -/
def Client.Get {Req T : Type} (lib : Lib Req T) (c : Client) (url : GoString) (response : T) :
    Outcome T :=
  -- res, err := c.HTTPClient.Get(url)
  match c.HTTPClient.Get url with
  | Except.error e =>
    -- return err
    { err := some (GoError.ext e), target := response, calls := [Call.ClientGet url] }
  | Except.ok res =>
    -- return parseResponse(res, response)
    let r := parseResponse lib res response
    { r with calls := [Call.ClientGet url] ++ r.calls }

/-- The method `Client.Post`. -/
def Client.Post {Req T : Type} (lib : Lib Req T) (c : Client) (url : GoString) (request : Req)
    (response : T) : Outcome T :=
  -- body, err = json.MarshalIndent(request, "", c.Indent)
  match lib.MarshalIndent request (lit "") c.Indent with
  | Except.error e =>
    -- return fmt.Errorf("error creating payload: %v", err)
    { err := some (Errorf (lit "error creating payload: ") e.text),
      target := response,
      calls := [Call.MarshalIndent (lit "") c.Indent] }
  | Except.ok body =>
    -- req, err := http.NewRequest(http.MethodPost, url, bytes.NewReader(body))
    match NewRequest lib MethodPost url body with
    | Except.error e =>
      -- return fmt.Errorf("error creating request: %v", err)
      { err := some (Errorf (lit "error creating request: ") e.text),
        target := response,
        calls := [Call.MarshalIndent (lit "") c.Indent, Call.NewRequest MethodPost url body] }
    | Except.ok req =>
      -- req.Header.Set("Content-Type", ContentType)
      let req : Request := { req with Header := req.Header.Set (lit "Content-Type") ContentType }
      -- if c.AuthorizationHeader != "" { req.Header.Set("Authorization", c.AuthorizationHeader) }
      let req : Request :=
        if c.AuthorizationHeader ≠ lit "" then
          { req with Header := req.Header.Set (lit "Authorization") c.AuthorizationHeader }
        else req
      -- res, err = c.HTTPClient.Do(req)
      match c.HTTPClient.Do req with
      | Except.error e =>
        -- return fmt.Errorf("error sending payload: %v", err)
        { err := some (Errorf (lit "error sending payload: ") e.text),
          target := response,
          calls := [Call.MarshalIndent (lit "") c.Indent, Call.NewRequest MethodPost url body,
                    Call.ClientDo req] }
      | Except.ok res =>
        -- return parseResponse(res, response)
        let r := parseResponse lib res response
        { r with calls := [Call.MarshalIndent (lit "") c.Indent,
                           Call.NewRequest MethodPost url body, Call.ClientDo req] ++ r.calls }

/-- The value of `req` at the call `c.HTTPClient.Do(req)` of `Client.Post`, for
the serialized body `body`: what `http.NewRequest` returned, with `Content-Type`
set and, for a non-empty `AuthorizationHeader`, `Authorization` set. -/
def sentRequest (c : Client) (url : GoString) (body : List UInt8) : Request :=
  { Method := MethodPost,
    URL := url,
    Header :=
      if c.AuthorizationHeader ≠ lit "" then
        [(lit "Authorization", [c.AuthorizationHeader]), (lit "Content-Type", [ContentType])]
      else [(lit "Content-Type", [ContentType])],
    Body := body }

/-- The package-level `Get`: `DefaultClient.Get(url, response)`. -/
def Get {Req T : Type} (lib : Lib Req T) (DefaultClient : Client) (url : GoString)
    (response : T) : Outcome T :=
  DefaultClient.Get lib url response

/-- The package-level `Post`: `DefaultClient.Post(url, request, response)`. -/
def Post {Req T : Type} (lib : Lib Req T) (DefaultClient : Client) (url : GoString)
    (request : Req) (response : T) : Outcome T :=
  DefaultClient.Post lib url request response

/-! ## The standard library's `json.MarshalIndent`

A model of `encoding/json` (`indent.go`, `scanner.go`) of the Go standard
library: `MarshalIndent` is `Marshal` followed by the re-formatting loop
`appendIndent`, which is driven by the JSON scanner.  The rendering of a
scanner error as text (`quoteChar`) is a parameter. -/

namespace encodingjson

/-- The scan codes `scanContinue` ... `scanError` returned by the scanner's step functions. -/
inductive Scan where
  | scanContinue | scanBeginLiteral | scanBeginObject | scanObjectKey | scanObjectValue
  | scanEndObject | scanBeginArray | scanArrayValue | scanEndArray | scanSkipSpace
  | scanEnd | scanError
deriving DecidableEq, Repr

/-- The entries `parseObjectKey`, `parseObjectValue`, `parseArrayValue` of the parse-state stack. -/
inductive Parse where
  | parseObjectKey | parseObjectValue | parseArrayValue
deriving DecidableEq, Repr

/-- The step functions of the scanner, as the values its `step` field takes. -/
inductive Step where
  | stateBeginValueOrEmpty | stateBeginValue | stateBeginStringOrEmpty | stateBeginString
  | stateEndValue | stateEndTop | stateInString | stateInStringEsc | stateInStringEscU
  | stateInStringEscU1 | stateInStringEscU12 | stateInStringEscU123
  | stateNeg | state1 | state0 | stateDot | stateDot0 | stateE | stateESign | stateE0
  | stateT | stateTr | stateTru | stateF | stateFa | stateFal | stateFals
  | stateN | stateNu | stateNul | stateError
deriving DecidableEq, Repr

/-- A `*json.SyntaxError`: either `invalid character <c> <context>` or
`unexpected end of JSON input`, with the byte offset. -/
inductive SyntaxError where
  | invalidCharacter (c : UInt8) (context : String) (Offset : Nat)
  | unexpectedEnd (Offset : Nat)
deriving DecidableEq, Repr

/-- The struct `scanner`; `parseState` is the stack with its top at the head. -/
structure scanner where
  step : Step
  endTop : Bool
  parseState : List Parse
  err : Option SyntaxError
  bytes : Nat
deriving DecidableEq, Repr

/-- The constant `maxNestingDepth`. -/
def maxNestingDepth : Nat := 10000

/-- The scanner after `reset()` (as `newScanner` returns it). -/
def newScanner : scanner :=
  { step := Step.stateBeginValue, endTop := false, parseState := [], err := none, bytes := 0 }

/-- The function `isSpace`. -/
def isSpace (c : UInt8) : Bool :=
  c ≤ 0x20 && (c == 0x20 || c == 0x09 || c == 0x0d || c == 0x0a)

/-- The method `scanner.error`. -/
def scanner.error (s : scanner) (c : UInt8) (context : String) : scanner × Scan :=
  ({ s with step := Step.stateError,
            err := some (SyntaxError.invalidCharacter c context s.bytes) }, Scan.scanError)

/-- The method `scanner.pushParseState`. -/
def scanner.pushParseState (s : scanner) (c : UInt8) (newParseState : Parse)
    (successState : Scan) : scanner × Scan :=
  let s := { s with parseState := newParseState :: s.parseState }
  if s.parseState.length ≤ maxNestingDepth then (s, successState)
  else s.error c "exceeded max depth"

/-- The method `scanner.popParseState`. -/
def scanner.popParseState (s : scanner) : scanner :=
  let s := { s with parseState := s.parseState.tail }
  if s.parseState.length = 0 then { s with step := Step.stateEndTop, endTop := true }
  else { s with step := Step.stateEndValue }

/-- The function `stateEndTop`. -/
def stateEndTop (s : scanner) (c : UInt8) : scanner × Scan :=
  if !isSpace c then ((s.error c "after top-level value").1, Scan.scanEnd)
  else (s, Scan.scanEnd)

/-- The function `stateEndValue`. -/
def stateEndValue (s : scanner) (c : UInt8) : scanner × Scan :=
  match s.parseState with
  | [] => stateEndTop { s with step := Step.stateEndTop, endTop := true } c
  | ps :: rest =>
    if isSpace c then ({ s with step := Step.stateEndValue }, Scan.scanSkipSpace)
    else
      match ps with
      | Parse.parseObjectKey =>
        if c == 0x3a then  -- ':'
          ({ s with parseState := Parse.parseObjectValue :: rest, step := Step.stateBeginValue },
            Scan.scanObjectKey)
        else s.error c "after object key"
      | Parse.parseObjectValue =>
        if c == 0x2c then  -- ','
          ({ s with parseState := Parse.parseObjectKey :: rest, step := Step.stateBeginString },
            Scan.scanObjectValue)
        else if c == 0x7d then  -- '}'
          (s.popParseState, Scan.scanEndObject)
        else s.error c "after object key:value pair"
      | Parse.parseArrayValue =>
        if c == 0x2c then  -- ','
          ({ s with step := Step.stateBeginValue }, Scan.scanArrayValue)
        else if c == 0x5d then  -- ']'
          (s.popParseState, Scan.scanEndArray)
        else s.error c "after array element"

/-- The function `stateBeginValue`. -/
def stateBeginValue (s : scanner) (c : UInt8) : scanner × Scan :=
  if isSpace c then (s, Scan.scanSkipSpace)
  else if c == 0x7b then  -- '{'
    ({ s with step := Step.stateBeginStringOrEmpty }).pushParseState c Parse.parseObjectKey
      Scan.scanBeginObject
  else if c == 0x5b then  -- '['
    ({ s with step := Step.stateBeginValueOrEmpty }).pushParseState c Parse.parseArrayValue
      Scan.scanBeginArray
  else if c == 0x22 then  -- '"'
    ({ s with step := Step.stateInString }, Scan.scanBeginLiteral)
  else if c == 0x2d then  -- '-'
    ({ s with step := Step.stateNeg }, Scan.scanBeginLiteral)
  else if c == 0x30 then  -- '0'
    ({ s with step := Step.state0 }, Scan.scanBeginLiteral)
  else if c == 0x74 then  -- 't'
    ({ s with step := Step.stateT }, Scan.scanBeginLiteral)
  else if c == 0x66 then  -- 'f'
    ({ s with step := Step.stateF }, Scan.scanBeginLiteral)
  else if c == 0x6e then  -- 'n'
    ({ s with step := Step.stateN }, Scan.scanBeginLiteral)
  else if 0x31 ≤ c && c ≤ 0x39 then  -- '1' .. '9'
    ({ s with step := Step.state1 }, Scan.scanBeginLiteral)
  else s.error c "looking for beginning of value"

/-- The function `stateBeginValueOrEmpty`. -/
def stateBeginValueOrEmpty (s : scanner) (c : UInt8) : scanner × Scan :=
  if isSpace c then (s, Scan.scanSkipSpace)
  else if c == 0x5d then stateEndValue s c  -- ']'
  else stateBeginValue s c

/-- The function `stateBeginString`. -/
def stateBeginString (s : scanner) (c : UInt8) : scanner × Scan :=
  if isSpace c then (s, Scan.scanSkipSpace)
  else if c == 0x22 then ({ s with step := Step.stateInString }, Scan.scanBeginLiteral)
  else s.error c "looking for beginning of object key string"

/-- The function `stateBeginStringOrEmpty`. -/
def stateBeginStringOrEmpty (s : scanner) (c : UInt8) : scanner × Scan :=
  if isSpace c then (s, Scan.scanSkipSpace)
  else if c == 0x7d then  -- '}'
    stateEndValue { s with parseState := Parse.parseObjectValue :: s.parseState.tail } c
  else stateBeginString s c

/-- Is the byte a hexadecimal digit (`0-9`, `a-f`, `A-F`)? -/
def isHex (c : UInt8) : Bool :=
  (0x30 ≤ c && c ≤ 0x39) || (0x61 ≤ c && c ≤ 0x66) || (0x41 ≤ c && c ≤ 0x46)

/-- Is the byte a decimal digit? -/
def isDigit (c : UInt8) : Bool :=
  0x30 ≤ c && c ≤ 0x39

/-- The function `stateInString`. -/
def stateInString (s : scanner) (c : UInt8) : scanner × Scan :=
  if c == 0x22 then ({ s with step := Step.stateEndValue }, Scan.scanContinue)
  else if c == 0x5c then ({ s with step := Step.stateInStringEsc }, Scan.scanContinue)
  else if c < 0x20 then s.error c "in string literal"
  else (s, Scan.scanContinue)

/-- The function `stateInStringEsc`: after a backslash in a string. -/
def stateInStringEsc (s : scanner) (c : UInt8) : scanner × Scan :=
  -- 'b', 'f', 'n', 'r', 't', '\\', '/', '"'
  if c == 0x62 || c == 0x66 || c == 0x6e || c == 0x72 || c == 0x74 || c == 0x5c || c == 0x2f
      || c == 0x22 then
    ({ s with step := Step.stateInString }, Scan.scanContinue)
  else if c == 0x75 then  -- 'u'
    ({ s with step := Step.stateInStringEscU }, Scan.scanContinue)
  else s.error c "in string escape code"

/-- The functions `stateInStringEscU`, `stateInStringEscU1`, `stateInStringEscU12`,
`stateInStringEscU123`: one hexadecimal digit, then on to `next`. -/
def stateInStringEscHex (next : Step) (s : scanner) (c : UInt8) : scanner × Scan :=
  if isHex c then ({ s with step := next }, Scan.scanContinue)
  else s.error c "in \\u hexadecimal character escape"

/-- The function `state0`: after a leading `0` of a number. -/
def state0 (s : scanner) (c : UInt8) : scanner × Scan :=
  if c == 0x2e then ({ s with step := Step.stateDot }, Scan.scanContinue)  -- '.'
  else if c == 0x65 || c == 0x45 then ({ s with step := Step.stateE }, Scan.scanContinue)
  else stateEndValue s c

/-- The function `state1`: after a non-zero integer part. -/
def state1 (s : scanner) (c : UInt8) : scanner × Scan :=
  if isDigit c then ({ s with step := Step.state1 }, Scan.scanContinue)
  else state0 s c

/-- The function `stateNeg`: after a minus sign. -/
def stateNeg (s : scanner) (c : UInt8) : scanner × Scan :=
  if c == 0x30 then ({ s with step := Step.state0 }, Scan.scanContinue)
  else if 0x31 ≤ c && c ≤ 0x39 then ({ s with step := Step.state1 }, Scan.scanContinue)
  else s.error c "in numeric literal"

/-- The function `stateDot`: after the decimal point. -/
def stateDot (s : scanner) (c : UInt8) : scanner × Scan :=
  if isDigit c then ({ s with step := Step.stateDot0 }, Scan.scanContinue)
  else s.error c "after decimal point in numeric literal"

/-- The function `stateDot0`: after a digit of the fraction. -/
def stateDot0 (s : scanner) (c : UInt8) : scanner × Scan :=
  if isDigit c then (s, Scan.scanContinue)
  else if c == 0x65 || c == 0x45 then ({ s with step := Step.stateE }, Scan.scanContinue)
  else stateEndValue s c

/-- The function `stateESign`: after the sign of the exponent. -/
def stateESign (s : scanner) (c : UInt8) : scanner × Scan :=
  if isDigit c then ({ s with step := Step.stateE0 }, Scan.scanContinue)
  else s.error c "in exponent of numeric literal"

/-- The function `stateE`: after the `e` of the exponent. -/
def stateE (s : scanner) (c : UInt8) : scanner × Scan :=
  if c == 0x2b || c == 0x2d then ({ s with step := Step.stateESign }, Scan.scanContinue)
  else stateESign s c

/-- The function `stateE0`: after a digit of the exponent. -/
def stateE0 (s : scanner) (c : UInt8) : scanner × Scan :=
  if isDigit c then (s, Scan.scanContinue)
  else stateEndValue s c

/-- The functions `stateT` ... `stateNul`: the next byte of `true`, `false` or
`null` must be `want`; then on to `next`. -/
def stateLiteral (want : UInt8) (next : Step) (context : String) (s : scanner) (c : UInt8) :
    scanner × Scan :=
  if c == want then ({ s with step := next }, Scan.scanContinue)
  else s.error c context

/-- The call `s.step(s, c)`: the step function held in the `step` field. -/
def scanner.run (s : scanner) (c : UInt8) : scanner × Scan :=
  match s.step with
  | Step.stateBeginValueOrEmpty => stateBeginValueOrEmpty s c
  | Step.stateBeginValue => stateBeginValue s c
  | Step.stateBeginStringOrEmpty => stateBeginStringOrEmpty s c
  | Step.stateBeginString => stateBeginString s c
  | Step.stateEndValue => stateEndValue s c
  | Step.stateEndTop => stateEndTop s c
  | Step.stateInString => stateInString s c
  | Step.stateInStringEsc => stateInStringEsc s c
  | Step.stateInStringEscU => stateInStringEscHex Step.stateInStringEscU1 s c
  | Step.stateInStringEscU1 => stateInStringEscHex Step.stateInStringEscU12 s c
  | Step.stateInStringEscU12 => stateInStringEscHex Step.stateInStringEscU123 s c
  | Step.stateInStringEscU123 => stateInStringEscHex Step.stateInString s c
  | Step.stateNeg => stateNeg s c
  | Step.state1 => state1 s c
  | Step.state0 => state0 s c
  | Step.stateDot => stateDot s c
  | Step.stateDot0 => stateDot0 s c
  | Step.stateE => stateE s c
  | Step.stateESign => stateESign s c
  | Step.stateE0 => stateE0 s c
  | Step.stateT => stateLiteral 0x72 Step.stateTr "in literal true (expecting 'r')" s c
  | Step.stateTr => stateLiteral 0x75 Step.stateTru "in literal true (expecting 'u')" s c
  | Step.stateTru => stateLiteral 0x65 Step.stateEndValue "in literal true (expecting 'e')" s c
  | Step.stateF => stateLiteral 0x61 Step.stateFa "in literal false (expecting 'a')" s c
  | Step.stateFa => stateLiteral 0x6c Step.stateFal "in literal false (expecting 'l')" s c
  | Step.stateFal => stateLiteral 0x73 Step.stateFals "in literal false (expecting 's')" s c
  | Step.stateFals => stateLiteral 0x65 Step.stateEndValue "in literal false (expecting 'e')" s c
  | Step.stateN => stateLiteral 0x75 Step.stateNu "in literal null (expecting 'u')" s c
  | Step.stateNu => stateLiteral 0x6c Step.stateNul "in literal null (expecting 'l')" s c
  | Step.stateNul => stateLiteral 0x6c Step.stateEndValue "in literal null (expecting 'l')" s c
  | Step.stateError => (s, Scan.scanError)

/-- The method `scanner.eof`. -/
def scanner.eof (s : scanner) : scanner × Scan :=
  if s.err.isSome then (s, Scan.scanError)
  else if s.endTop then (s, Scan.scanEnd)
  else
    let s := (s.run 0x20).1
    if s.endTop then (s, Scan.scanEnd)
    else if s.err.isNone then
      ({ s with err := some (SyntaxError.unexpectedEnd s.bytes) }, Scan.scanError)
    else (s, Scan.scanError)

/-- The function `appendNewline`: a newline, the prefix, and `depth` copies of the indent. -/
def appendNewline (dst : List UInt8) (pfx indent : GoString) (depth : Int) : List UInt8 :=
  dst ++ [0x0a] ++ pfx ++ (List.replicate depth.toNat indent).flatten

/-- The local variables of `appendIndent`. -/
structure IndentVars where
  dst : List UInt8
  scan : scanner
  needIndent : Bool
  depth : Int
deriving DecidableEq, Repr

/-- The loop `for _, c := range src` of `appendIndent`. -/
def appendIndentLoop (pfx indent : GoString) : IndentVars → List UInt8 → IndentVars
  | vars, [] => vars
  | vars, c :: src =>
    -- scan.bytes++ ; v := scan.step(scan, c)
    let stepped := ({ vars.scan with bytes := vars.scan.bytes + 1 }).run c
    let vars := { vars with scan := stepped.1 }
    let v := stepped.2
    if v = Scan.scanSkipSpace then appendIndentLoop pfx indent vars src  -- continue
    else if v = Scan.scanError then vars  -- break
    else
      let vars :=
        if vars.needIndent && v != Scan.scanEndObject && v != Scan.scanEndArray then
          { vars with needIndent := false, depth := vars.depth + 1,
                      dst := appendNewline vars.dst pfx indent (vars.depth + 1) }
        else vars
      -- Emit semantically uninteresting bytes (in particular, punctuation in strings) unmodified.
      if v = Scan.scanContinue then
        appendIndentLoop pfx indent { vars with dst := vars.dst ++ [c] } src
      -- Add spacing around real punctuation.
      else if c == 0x7b || c == 0x5b then  -- '{', '['
        appendIndentLoop pfx indent { vars with needIndent := true, dst := vars.dst ++ [c] } src
      else if c == 0x2c then  -- ','
        appendIndentLoop pfx indent
          { vars with dst := appendNewline (vars.dst ++ [c]) pfx indent vars.depth } src
      else if c == 0x3a then  -- ':'
        appendIndentLoop pfx indent { vars with dst := vars.dst ++ [c, 0x20] } src
      else if c == 0x7d || c == 0x5d then  -- '}', ']'
        if vars.needIndent then
          -- suppress indent in empty object/array
          appendIndentLoop pfx indent { vars with needIndent := false, dst := vars.dst ++ [c] } src
        else
          appendIndentLoop pfx indent
            { vars with depth := vars.depth - 1,
                        dst := appendNewline vars.dst pfx indent (vars.depth - 1) ++ [c] } src
      else
        appendIndentLoop pfx indent { vars with dst := vars.dst ++ [c] } src

/-- The function `appendIndent`, called with an empty `dst`. -/
def appendIndent (src : List UInt8) (pfx indent : GoString) : Except SyntaxError (List UInt8) :=
  let vars := appendIndentLoop pfx indent
    { dst := [], scan := newScanner, needIndent := false, depth := 0 } src
  let ended := vars.scan.eof
  if ended.2 = Scan.scanError then
    match ended.1.err with
    | some e => Except.error e
    | none => Except.ok []
  else Except.ok vars.dst

/-- The function `json.MarshalIndent`, over `json.Marshal` (`marshal`) and the
rendering of a syntax error as an error value (`render`). -/
def MarshalIndent {Req : Type} (marshal : Req → Except ExtError (List UInt8))
    (render : SyntaxError → ExtError) (v : Req) (pfx indent : GoString) :
    Except ExtError (List UInt8) :=
  match marshal v with
  | Except.error e => Except.error e
  | Except.ok b =>
    match appendIndent b pfx indent with
    | Except.error e => Except.error (render e)
    | Except.ok b2 => Except.ok b2

/-- The library record whose `MarshalIndent` is the standard library's, over the
given `Marshal`, `Unmarshal` and URL parser. -/
def goLib {Req T : Type} (marshal : Req → Except ExtError (List UInt8))
    (render : SyntaxError → ExtError) (unmarshal : ByteSlice → T → T × Option ExtError)
    (urlParse : GoString → Option ExtError) : Lib Req T :=
  { Marshal := marshal,
    MarshalIndent := MarshalIndent marshal render,
    Unmarshal := unmarshal,
    urlParse := urlParse }

end encodingjson

namespace encodingjson

/-! ### JSON values and their two renderings

A tree of JSON values whose scalars are the literals `true`, `false` and `null`,
positive integers and strings of plain bytes, the compact text `json.Marshal` emits for it, and the indented text that
`json.Indent` documents: every element of a non-empty object or array on a line
of its own, begun with the prefix and one indent per nesting level, and a space
after each colon. -/

/-- The literals `true`, `false` and `null`. -/
inductive Word where
  | true_
  | false_
  | null
deriving DecidableEq, Repr

/-- The text of a literal. -/
def Word.text : Word → List UInt8
  | Word.true_ => [0x74, 0x72, 0x75, 0x65]
  | Word.false_ => [0x66, 0x61, 0x6c, 0x73, 0x65]
  | Word.null => [0x6e, 0x75, 0x6c, 0x6c]

mutual
/-- A JSON value: a literal, a positive integer (first digit, further digits), a
string, an empty or non-empty array, an empty or non-empty object. -/
inductive Json where
  | word (w : Word)
  | num (first : UInt8) (digits : List UInt8)
  | str (s : List UInt8)
  | emptyArr
  | arr (first : Json) (more : Items)
  | emptyObj
  | obj (key : List UInt8) (first : Json) (more : Members)
/-- The elements of an array after the first. -/
inductive Items where
  | nil
  | cons (v : Json) (more : Items)
/-- The members of an object after the first. -/
inductive Members where
  | nil
  | cons (key : List UInt8) (v : Json) (more : Members)
end

/-- A byte that stands for itself inside a JSON string: not a control byte, not
the quote, not the backslash. -/
def isPlain (c : UInt8) : Bool :=
  !(c < 0x20) && !(c == 0x22) && !(c == 0x5c)

mutual
/-- The scalars are well formed: integers are digits with a first digit from 1
to 9, strings and keys are plain bytes. -/
def Json.wf : Json → Bool
  | Json.word _ => true
  | Json.num first digits => (0x31 ≤ first && first ≤ 0x39) && digits.all isDigit
  | Json.str s => s.all isPlain
  | Json.emptyArr => true
  | Json.arr first more => first.wf && more.wf
  | Json.emptyObj => true
  | Json.obj key first more => key.all isPlain && first.wf && more.wf
/-- Well-formedness of the further elements. -/
def Items.wf : Items → Bool
  | Items.nil => true
  | Items.cons v more => v.wf && more.wf
/-- Well-formedness of the further members. -/
def Members.wf : Members → Bool
  | Members.nil => true
  | Members.cons key v more => key.all isPlain && v.wf && more.wf
end

mutual
/-- The nesting depth: the number of arrays and objects around the innermost value. -/
def Json.depth : Json → Nat
  | Json.word _ => 0
  | Json.num _ _ => 0
  | Json.str _ => 0
  | Json.emptyArr => 1
  | Json.arr first more => 1 + max first.depth more.depth
  | Json.emptyObj => 1
  | Json.obj _ first more => 1 + max first.depth more.depth
/-- The largest nesting depth among the further elements. -/
def Items.depth : Items → Nat
  | Items.nil => 0
  | Items.cons v more => max v.depth more.depth
/-- The largest nesting depth among the further members. -/
def Members.depth : Members → Nat
  | Members.nil => 0
  | Members.cons _ v more => max v.depth more.depth
end

mutual
/-- The compact text of a value, as `json.Marshal` emits it. -/
def Json.compact : Json → List UInt8
  | Json.word w => w.text
  | Json.num first digits => first :: digits
  | Json.str s => [0x22] ++ s ++ [0x22]
  | Json.emptyArr => [0x5b, 0x5d]
  | Json.arr first more => [0x5b] ++ first.compact ++ more.compact ++ [0x5d]
  | Json.emptyObj => [0x7b, 0x7d]
  | Json.obj key first more =>
    [0x7b] ++ ([0x22] ++ key ++ [0x22, 0x3a]) ++ first.compact ++ more.compact ++ [0x7d]
/-- The compact text of the further elements, each after a comma. -/
def Items.compact : Items → List UInt8
  | Items.nil => []
  | Items.cons v more => [0x2c] ++ v.compact ++ more.compact
/-- The compact text of the further members, each after a comma. -/
def Members.compact : Members → List UInt8
  | Members.nil => []
  | Members.cons key v more =>
    [0x2c] ++ ([0x22] ++ key ++ [0x22, 0x3a]) ++ v.compact ++ more.compact
end

/-- A line break at nesting level `d`: a newline, the prefix, `d` copies of the indent. -/
def lineBreak (pfx indent : GoString) (d : Nat) : List UInt8 :=
  [0x0a] ++ pfx ++ (List.replicate d indent).flatten

mutual
/-- The indented text of a value at nesting level `d`. -/
def Json.indented (pfx indent : GoString) : Json → Nat → List UInt8
  | Json.word w, _ => w.text
  | Json.num first digits, _ => first :: digits
  | Json.str s, _ => [0x22] ++ s ++ [0x22]
  | Json.emptyArr, _ => [0x5b, 0x5d]
  | Json.arr first more, d =>
    [0x5b] ++ lineBreak pfx indent (d + 1) ++ first.indented pfx indent (d + 1)
      ++ more.indented pfx indent (d + 1) ++ lineBreak pfx indent d ++ [0x5d]
  | Json.emptyObj, _ => [0x7b, 0x7d]
  | Json.obj key first more, d =>
    [0x7b] ++ lineBreak pfx indent (d + 1) ++ ([0x22] ++ key ++ [0x22, 0x3a, 0x20])
      ++ first.indented pfx indent (d + 1)
      ++ more.indented pfx indent (d + 1) ++ lineBreak pfx indent d ++ [0x7d]
/-- The indented text of the further elements at level `d`, each after a comma
and a line break. -/
def Items.indented (pfx indent : GoString) : Items → Nat → List UInt8
  | Items.nil, _ => []
  | Items.cons v more, d =>
    [0x2c] ++ lineBreak pfx indent d ++ v.indented pfx indent d ++ more.indented pfx indent d
/-- The indented text of the further members at level `d`, each after a comma
and a line break. -/
def Members.indented (pfx indent : GoString) : Members → Nat → List UInt8
  | Members.nil, _ => []
  | Members.cons key v more, d =>
    [0x2c] ++ lineBreak pfx indent d ++ ([0x22] ++ key ++ [0x22, 0x3a, 0x20])
      ++ v.indented pfx indent d ++ more.indented pfx indent d
end

end encodingjson

namespace encodingjson

/-- The line break that precedes the first element after an opening bracket
(`needIndent` is set), and nothing otherwise. -/
def lead (pfx indent : GoString) (needIndent : Bool) (d : Nat) : List UInt8 :=
  if needIndent then lineBreak pfx indent (d + 1) else []

/-- The nesting level after the pending indent has been taken. -/
def level (needIndent : Bool) (d : Nat) : Nat :=
  if needIndent then d + 1 else d

/-- The scanner is about to read a value. -/
def scanner.atValue (s : scanner) : Prop :=
  s.step = Step.stateBeginValue ∨ s.step = Step.stateBeginValueOrEmpty

/-- The scanner is about to read an object key. -/
def scanner.atKey (s : scanner) : Prop :=
  s.step = Step.stateBeginString ∨ s.step = Step.stateBeginStringOrEmpty

/-- The scanner `s2` is `s1` after one complete value: same stack and error, and
the value has ended (a number may still be open). -/
def scanner.ended (s1 s2 : scanner) : Prop :=
  s2.parseState = s1.parseState ∧ s2.err = s1.err
    ∧ (s2.step = Step.state1 ∨ s2.step = Step.stateEndValue
        ∨ (s1.parseState = [] ∧ s2.endTop = true ∧ s2.step = Step.stateEndTop))

end encodingjson

namespace encodingjson

/-- The value has no line of its own to give: a scalar, `[]` or `{}`. -/
def Json.flat : Json → Bool
  | Json.word _ => true
  | Json.num _ _ => true
  | Json.str _ => true
  | Json.emptyArr => true
  | Json.emptyObj => true
  | Json.arr _ _ => false
  | Json.obj _ _ _ => false

end encodingjson

/-! ## Sample values used to instantiate the theorems -/

/-- A response target shaped `struct{ X int }`. -/
structure XTarget where
  X : Int
deriving DecidableEq, Repr

/-- A syntax error of the JSON decoder. -/
def decodeErr : ExtError :=
  { kind := 1, text := lit "invalid character 'o' in literal null (expecting 'u')" }

/-- A read error of the body stream. -/
def readErr : ExtError :=
  { kind := 2, text := lit "unexpected EOF" }

/-- A transport error. -/
def dialErr : ExtError :=
  { kind := 3, text := lit "dial tcp 127.0.0.1:80: connect: connection refused" }

/-- An error of the JSON encoder. -/
def marshalErr : ExtError :=
  { kind := 4, text := lit "json: unsupported type: chan int" }

/-- The text `{"x":1}`. -/
def bodyX1 : List UInt8 := lit "\x7b\"x\":1\x7d"

/-- A stand-in for `json.Unmarshal` into an `XTarget`: it decodes the text
`{"x":1}` to `X = 1` and rejects every other input with a syntax error. -/
def sampleUnmarshal (data : ByteSlice) (target : XTarget) : XTarget × Option ExtError :=
  if data = some bodyX1 then ({ X := 1 }, none) else (target, some decodeErr)

/-- A stand-in for `json.Marshal`: a request value is given by its compact JSON
text; `none` is a value the encoder rejects (a channel, say). -/
def sampleMarshal (request : Option (List UInt8)) : Except ExtError (List UInt8) :=
  match request with
  | some b => Except.ok b
  | none => Except.error marshalErr

/-- The rendering of a scanner error as an error value (its text is not modelled). -/
def sampleRender (_ : encodingjson.SyntaxError) : ExtError :=
  { kind := 5, text := lit "invalid character" }

/-- The sample library: the standard library's `MarshalIndent` over the
stand-ins, with a URL parser that accepts every URL. -/
def sampleLib : Lib (Option (List UInt8)) XTarget :=
  encodingjson.goLib sampleMarshal sampleRender sampleUnmarshal (fun _ => none)

/-- The JSON value `{"a":1}`. -/
def sampleObject : encodingjson.Json :=
  encodingjson.Json.obj (lit "a") (encodingjson.Json.num 0x31 []) encodingjson.Members.nil

/-- A transport that answers every request with `res`. -/
def serverClient (res : Response) : HTTPClient :=
  { Get := fun _ => Except.ok res, Do := fun _ => Except.ok res }

/-- A transport that fails every request with `dialErr`. -/
def downClient : HTTPClient :=
  { Get := fun _ => Except.error dialErr, Do := fun _ => Except.error dialErr }

/-- The URL used in the samples. -/
def sampleURL : GoString := lit "http://example.com/api"

/-- Status 200 with body `{"x":1}`. -/
def res200 : Response :=
  { Status := lit "200 OK", StatusCode := 200, Body := { data := some bodyX1, err := none } }

/-- Status 200 with body `{"x":1}` whose read ends with an error after all bytes arrived. -/
def res200ReadErr : Response :=
  { Status := lit "200 OK", StatusCode := 200, Body := { data := some bodyX1, err := some readErr } }

/-- Status 200 with the truncated, invalid body `{"x":` whose read ends with an error. -/
def res200Truncated : Response :=
  { Status := lit "200 OK", StatusCode := 200,
    Body := { data := some (lit "\x7b\"x\":"), err := some readErr } }

/-- Status 200 with the invalid body `not json`. -/
def res200Invalid : Response :=
  { Status := lit "200 OK", StatusCode := 200, Body := { data := some (lit "not json"), err := none } }

/-- Status 404 with body `not found`. -/
def res404 : Response :=
  { Status := lit "404 Not Found", StatusCode := 404,
    Body := { data := some (lit "not found"), err := none } }

/-- Status 500 with an empty body. -/
def res500Empty : Response :=
  { Status := lit "500 Internal Server Error", StatusCode := 500,
    Body := { data := some [], err := none } }

/-- Status 502 with the partial body `<html>` whose read ended with an error. -/
def res502Partial : Response :=
  { Status := lit "502 Bad Gateway", StatusCode := 502,
    Body := { data := some (lit "<html>"), err := some readErr } }

/-- Status 500 with the valid body `{"x":1}`. -/
def res500Valid : Response :=
  { Status := lit "500 Internal Server Error", StatusCode := 500,
    Body := { data := some bodyX1, err := none } }

/-! ## Theorems: `parseResponse` -/

theorem string_nil_guard (body : ByteSlice) :
    string (if body = none then some [] else body) = string body := by
  cases body <;> simp [string]

/-- With a status code of 400 or more the outcome is the `Error` with the
status-derived cause; only the body is read. -/
theorem parseResponse_status {Req T : Type} (lib : Lib Req T) (res : Response) (t : T)
    (h : res.StatusCode ≥ 400) :
    parseResponse lib res t =
      { err := some (GoError.Error res.StatusCode (string res.Body.data)
                      (Errorf (lit "got HTTP ") res.Status)),
        target := t, calls := [Call.ReadAll, Call.Close] } := by
  simp [parseResponse, h, string_nil_guard]

/-- With a status code below 400 and a failed read the outcome is the `Error`
with the read error as cause; the body is not decoded. -/
theorem parseResponse_readErr {Req T : Type} (lib : Lib Req T) (res : Response) (t : T)
    (h : res.StatusCode < 400) (e : ExtError) (hr : res.Body.err = some e) :
    parseResponse lib res t =
      { err := some (GoError.Error res.StatusCode (string res.Body.data) (GoError.ext e)),
        target := t, calls := [Call.ReadAll, Call.Close] } := by
  have h' : ¬ (400 ≤ res.StatusCode) := not_le.mpr h
  simp [parseResponse, h', hr, string_nil_guard]

/-- With a status code below 400, a clean read and a decode error the outcome is
the `Error` with the decode error as cause. -/
theorem parseResponse_decodeErr {Req T : Type} (lib : Lib Req T) (res : Response) (t : T)
    (h : res.StatusCode < 400) (hr : res.Body.err = none) (e : ExtError)
    (hd : (lib.Unmarshal res.Body.data t).2 = some e) :
    parseResponse lib res t =
      { err := some (GoError.Error res.StatusCode (string res.Body.data) (GoError.ext e)),
        target := (lib.Unmarshal res.Body.data t).1,
        calls := [Call.ReadAll, Call.Unmarshal res.Body.data, Call.Close] } := by
  have h' : ¬ (400 ≤ res.StatusCode) := not_le.mpr h
  simp [parseResponse, h', hr, hd, string_nil_guard]

/-- With a status code below 400, a clean read and a clean decode there is no
error and the target holds the decoded value. -/
theorem parseResponse_ok {Req T : Type} (lib : Lib Req T) (res : Response) (t : T)
    (h : res.StatusCode < 400) (hr : res.Body.err = none)
    (hd : (lib.Unmarshal res.Body.data t).2 = none) :
    parseResponse lib res t =
      { err := none,
        target := (lib.Unmarshal res.Body.data t).1,
        calls := [Call.ReadAll, Call.Unmarshal res.Body.data, Call.Close] } := by
  have h' : ¬ (400 ≤ res.StatusCode) := not_le.mpr h
  simp [parseResponse, h', hr, hd]

/-! ## Theorems: `Client.Get` and `Client.Post` step by step -/

theorem Get_transportErr {Req T : Type} (lib : Lib Req T) (c : Client) (url : GoString) (t : T)
    (e : ExtError) (h : c.HTTPClient.Get url = Except.error e) :
    Client.Get lib c url t =
      { err := some (GoError.ext e), target := t, calls := [Call.ClientGet url] } := by
  simp [Client.Get, h]

theorem Get_parse {Req T : Type} (lib : Lib Req T) (c : Client) (url : GoString) (t : T)
    (res : Response) (h : c.HTTPClient.Get url = Except.ok res) :
    Client.Get lib c url t =
      { err := (parseResponse lib res t).err,
        target := (parseResponse lib res t).target,
        calls := Call.ClientGet url :: (parseResponse lib res t).calls } := by
  simp [Client.Get, h]

theorem Post_marshalErr {Req T : Type} (lib : Lib Req T) (c : Client) (url : GoString)
    (request : Req) (t : T) (e : ExtError)
    (h : lib.MarshalIndent request (lit "") c.Indent = Except.error e) :
    Client.Post lib c url request t =
      { err := some (Errorf (lit "error creating payload: ") e.text),
        target := t, calls := [Call.MarshalIndent (lit "") c.Indent] } := by
  simp [Client.Post, h]

theorem Post_requestErr {Req T : Type} (lib : Lib Req T) (c : Client) (url : GoString)
    (request : Req) (t : T) (body : List UInt8) (e : ExtError)
    (h : lib.MarshalIndent request (lit "") c.Indent = Except.ok body)
    (hu : lib.urlParse url = some e) :
    Client.Post lib c url request t =
      { err := some (Errorf (lit "error creating request: ") e.text),
        target := t,
        calls := [Call.MarshalIndent (lit "") c.Indent, Call.NewRequest MethodPost url body] } := by
  simp [Client.Post, h, NewRequest, hu]

theorem sentRequest_eq (c : Client) (url : GoString) (body : List UInt8) :
    (if c.AuthorizationHeader ≠ lit "" then
        ({ Method := MethodPost, URL := url,
           Header := (Header.Set (Header.Set [] (lit "Content-Type") ContentType)
                       (lit "Authorization") c.AuthorizationHeader),
           Body := body } : Request)
      else
        { Method := MethodPost, URL := url,
          Header := Header.Set [] (lit "Content-Type") ContentType, Body := body })
      = sentRequest c url body := by
  have hne : (lit "Content-Type" != lit "Authorization") = true := by decide
  unfold sentRequest
  split <;> simp [Header.Set, hne]

theorem Post_sendErr {Req T : Type} (lib : Lib Req T) (c : Client) (url : GoString)
    (request : Req) (t : T) (body : List UInt8) (e : ExtError)
    (h : lib.MarshalIndent request (lit "") c.Indent = Except.ok body)
    (hu : lib.urlParse url = none)
    (hd : c.HTTPClient.Do (sentRequest c url body) = Except.error e) :
    Client.Post lib c url request t =
      { err := some (Errorf (lit "error sending payload: ") e.text),
        target := t,
        calls := [Call.MarshalIndent (lit "") c.Indent, Call.NewRequest MethodPost url body,
                  Call.ClientDo (sentRequest c url body)] } := by
  have hs := sentRequest_eq c url body
  simp only [Client.Post, h, NewRequest, hu]
  simp only [hs, hd]

theorem Post_parse {Req T : Type} (lib : Lib Req T) (c : Client) (url : GoString)
    (request : Req) (t : T) (body : List UInt8) (res : Response)
    (h : lib.MarshalIndent request (lit "") c.Indent = Except.ok body)
    (hu : lib.urlParse url = none)
    (hd : c.HTTPClient.Do (sentRequest c url body) = Except.ok res) :
    Client.Post lib c url request t =
      { err := (parseResponse lib res t).err,
        target := (parseResponse lib res t).target,
        calls := [Call.MarshalIndent (lit "") c.Indent, Call.NewRequest MethodPost url body,
                  Call.ClientDo (sentRequest c url body)] ++ (parseResponse lib res t).calls } := by
  have hs := sentRequest_eq c url body
  simp only [Client.Post, h, NewRequest, hu]
  simp only [hs, hd]

theorem parseResponse_calls {Req T : Type} (lib : Lib Req T) (res : Response) (t : T) :
    (parseResponse lib res t).calls = [Call.ReadAll, Call.Close]
      ∨ (parseResponse lib res t).calls =
          [Call.ReadAll, Call.Unmarshal res.Body.data, Call.Close] := by
  by_cases h : res.StatusCode ≥ 400
  · left; rw [parseResponse_status lib res t h]
  · have h' : res.StatusCode < 400 := not_le.mp h
    cases hr : res.Body.err with
    | some e => left; rw [parseResponse_readErr lib res t h' e hr]
    | none =>
      cases hd : (lib.Unmarshal res.Body.data t).2 with
      | some e => right; rw [parseResponse_decodeErr lib res t h' hr e hd]
      | none => right; rw [parseResponse_ok lib res t h' hr hd]

theorem parseResponse_calls_noDo {Req T : Type} (lib : Lib Req T) (res : Response) (t : T)
    (rq : Request) : Call.ClientDo rq ∉ (parseResponse lib res t).calls := by
  rcases parseResponse_calls lib res t with h | h <;> simp [h]

theorem parseResponse_error_shape {Req T : Type} (lib : Lib Req T) (res : Response) (t : T) :
    (parseResponse lib res t).err = none
      ∨ ∃ cause, (parseResponse lib res t).err =
          some (GoError.Error res.StatusCode (string res.Body.data) cause) := by
  by_cases h : res.StatusCode ≥ 400
  · right; rw [parseResponse_status lib res t h]; exact ⟨_, rfl⟩
  · have h' : res.StatusCode < 400 := not_le.mp h
    cases hr : res.Body.err with
    | some e => right; rw [parseResponse_readErr lib res t h' e hr]; exact ⟨_, rfl⟩
    | none =>
      cases hd : (lib.Unmarshal res.Body.data t).2 with
      | some e => right; rw [parseResponse_decodeErr lib res t h' hr e hd]; exact ⟨_, rfl⟩
      | none => left; rw [parseResponse_ok lib res t h' hr hd]

theorem Post_calls_Do {Req T : Type} (lib : Lib Req T) (c : Client) (url : GoString)
    (request : Req) (t : T) (rq : Request)
    (hmem : Call.ClientDo rq ∈ (Client.Post lib c url request t).calls) :
    ∃ body, lib.MarshalIndent request (lit "") c.Indent = Except.ok body
      ∧ lib.urlParse url = none ∧ rq = sentRequest c url body := by
  cases hm : lib.MarshalIndent request (lit "") c.Indent with
  | error e =>
    rw [Post_marshalErr lib c url request t e hm] at hmem
    simp at hmem
  | ok body =>
    cases hu : lib.urlParse url with
    | some e =>
      rw [Post_requestErr lib c url request t body e hm hu] at hmem
      simp at hmem
    | none =>
      refine ⟨body, rfl, rfl, ?_⟩
      cases hd : c.HTTPClient.Do (sentRequest c url body) with
      | error e =>
        rw [Post_sendErr lib c url request t body e hm hu hd] at hmem
        simpa using hmem
      | ok res =>
        rw [Post_parse lib c url request t body res hm hu hd] at hmem
        have hno := parseResponse_calls_noDo lib res t rq
        simp at hmem
        rcases hmem with h | h
        · exact h
        · exact absurd h hno

theorem Post_calls_Do_mem {Req T : Type} (lib : Lib Req T) (c : Client) (url : GoString)
    (request : Req) (t : T) (body : List UInt8)
    (hm : lib.MarshalIndent request (lit "") c.Indent = Except.ok body)
    (hu : lib.urlParse url = none) :
    Call.ClientDo (sentRequest c url body) ∈ (Client.Post lib c url request t).calls := by
  cases hd : c.HTTPClient.Do (sentRequest c url body) with
  | error e => rw [Post_sendErr lib c url request t body e hm hu hd]; simp
  | ok res => rw [Post_parse lib c url request t body res hm hu hd]; simp

/-! ## Theorems: the indenting pass of `encoding/json` -/

namespace encodingjson

theorem forall_byte (P : UInt8 → Prop) (h : ∀ n : Fin 256, P ⟨⟨n⟩⟩) : ∀ c, P c :=
  fun c => h c.toBitVec.toFin

set_option maxRecDepth 100000 in
theorem plain_facts : ∀ c : UInt8, isPlain c = true →
    (c == 0x22) = false ∧ (c == 0x5c) = false ∧ ¬ (c < 0x20) := by
  apply forall_byte
  decide

set_option maxRecDepth 100000 in
theorem digit_facts : ∀ c : UInt8, isDigit c = true →
    (0x30 ≤ c) ∧ (c ≤ 0x39) := by
  apply forall_byte
  decide

set_option maxRecDepth 100000 in
theorem first_digit_facts : ∀ c : UInt8, (0x31 ≤ c && c ≤ 0x39) = true →
    isSpace c = false ∧ (c == 0x7b) = false ∧ (c == 0x5b) = false ∧ (c == 0x22) = false
      ∧ (c == 0x2d) = false ∧ (c == 0x30) = false ∧ (c == 0x74) = false ∧ (c == 0x66) = false
      ∧ (c == 0x6e) = false ∧ (c == 0x5d) = false ∧ (c == 0x2c) = false ∧ (c == 0x3a) = false
      ∧ (c == 0x7d) = false ∧ (0x31 ≤ c) ∧ (c ≤ 0x39) := by
  apply forall_byte
  decide

/-- Plain bytes inside a string are copied. -/
theorem loop_plain (pfx indent : GoString) (bs : List UInt8) :
    ∀ (dst : List UInt8) (s : scanner) (d : Int) (rest : List UInt8),
      s.step = Step.stateInString → bs.all isPlain = true →
      appendIndentLoop pfx indent ⟨dst, s, false, d⟩ (bs ++ rest) =
        appendIndentLoop pfx indent
          ⟨dst ++ bs, { s with bytes := s.bytes + bs.length }, false, d⟩ rest := by
  induction bs with
  | nil => intro dst s d rest _ _; simp
  | cons c bs ih =>
    intro dst s d rest hs hall
    simp only [List.all_cons, Bool.and_eq_true] at hall
    obtain ⟨h1, h2, h3⟩ := plain_facts c hall.1
    have hrun : ({ s with bytes := s.bytes + 1 } : scanner).run c
        = ({ s with bytes := s.bytes + 1 }, Scan.scanContinue) := by
      simp [scanner.run, hs, stateInString, h1, h2, h3]
    rw [List.cons_append, appendIndentLoop]
    simp only [hrun]
    simp only [reduceCtorEq, if_false, if_true, Bool.false_and, Bool.false_eq_true]
    rw [ih _ _ _ _ (by exact hs) hall.2]
    simp [Nat.add_assoc, Nat.add_comm 1]

end encodingjson

namespace encodingjson

theorem appendNewline_nat (dst : List UInt8) (pfx indent : GoString) (d : Nat) :
    appendNewline dst pfx indent (d : Int) = dst ++ lineBreak pfx indent d := by
  simp [appendNewline, lineBreak]

theorem appendNewline_succ (dst : List UInt8) (pfx indent : GoString) (d : Nat) :
    appendNewline dst pfx indent ((d : Int) + 1) = dst ++ lineBreak pfx indent (d + 1) := by
  have : ((d : Int) + 1) = ((d + 1 : Nat) : Int) := by push_cast; rfl
  rw [this, appendNewline_nat]

/-- Digits inside a number are copied. -/
theorem loop_digits (pfx indent : GoString) (bs : List UInt8) :
    ∀ (dst : List UInt8) (s : scanner) (d : Int) (rest : List UInt8),
      s.step = Step.state1 → bs.all isDigit = true →
      appendIndentLoop pfx indent ⟨dst, s, false, d⟩ (bs ++ rest) =
        appendIndentLoop pfx indent
          ⟨dst ++ bs, { s with bytes := s.bytes + bs.length }, false, d⟩ rest := by
  induction bs with
  | nil => intro dst s d rest _ _; simp
  | cons c bs ih =>
    intro dst s d rest hs hall
    simp only [List.all_cons, Bool.and_eq_true] at hall
    have hrun : ({ s with bytes := s.bytes + 1 } : scanner).run c
        = ({ s with bytes := s.bytes + 1 }, Scan.scanContinue) := by
      cases s; simp only at hs; subst hs
      simp [scanner.run, state1, hall.1]
    rw [List.cons_append, appendIndentLoop]
    simp only [hrun]
    simp only [reduceCtorEq, if_false, if_true, Bool.false_and, Bool.false_eq_true]
    rw [ih _ _ _ _ (by exact hs) hall.2]
    simp [Nat.add_assoc, Nat.add_comm 1]

/-- A positive integer is copied, after the pending line break. -/
theorem loop_num (pfx indent : GoString) (first : UInt8) (digits : List UInt8)
    (dst : List UInt8) (s : scanner) (b : Bool) (d : Nat) (rest : List UInt8)
    (hs : s.atValue) (hw : (Json.num first digits).wf = true) :
    appendIndentLoop pfx indent ⟨dst, s, b, d⟩ (first :: digits ++ rest) =
      appendIndentLoop pfx indent
        ⟨dst ++ lead pfx indent b d ++ first :: digits,
         { s with step := Step.state1, bytes := s.bytes + (1 + digits.length) }, false,
         (level b d : Nat)⟩ rest := by
  simp only [Json.wf, Bool.and_eq_true] at hw
  have hf := first_digit_facts first (by simpa using hw.1)
  obtain ⟨f1, f2, f3, f4, f5, f6, f7, f8, f9, f10, f11, f12, f13, f14, f15⟩ := hf
  have hrun : ({ s with bytes := s.bytes + 1 } : scanner).run first
      = ({ s with bytes := s.bytes + 1, step := Step.state1 }, Scan.scanBeginLiteral) := by
    rcases hs with hs | hs
    · simp [scanner.run, hs, stateBeginValue, f1, f2, f3, f4, f5, f6, f7, f8, f9, f14, f15]
    · simp [scanner.run, hs, stateBeginValueOrEmpty, stateBeginValue, f1, f2, f3, f4, f5, f6,
        f7, f8, f9, f10, f14, f15]
  rw [List.cons_append, appendIndentLoop]
  simp only [hrun]
  cases b
  · simp only [reduceCtorEq, if_false, Bool.false_and, Bool.false_eq_true, f2, f3, f11, f12,
      f13, f10, Bool.or_self]
    rw [loop_digits pfx indent digits _ _ _ _ rfl hw.2]
    simp [lead, level, Nat.add_assoc]
  · simp [f2, f3, f11, f12, f13, f10, appendNewline_succ]
    rw [loop_digits pfx indent digits _ _ _ _ rfl hw.2]
    simp [lead, level, Nat.add_assoc]

end encodingjson

namespace encodingjson

/-- A string value is copied, after the pending line break. -/
theorem loop_str (pfx indent : GoString) (bs : List UInt8)
    (dst : List UInt8) (s : scanner) (b : Bool) (d : Nat) (rest : List UInt8)
    (hs : s.atValue) (hw : bs.all isPlain = true) :
    appendIndentLoop pfx indent ⟨dst, s, b, d⟩ ([0x22] ++ bs ++ [0x22] ++ rest) =
      appendIndentLoop pfx indent
        ⟨dst ++ lead pfx indent b d ++ ([0x22] ++ bs ++ [0x22]),
         { s with step := Step.stateEndValue, bytes := s.bytes + (bs.length + 2) }, false,
         (level b d : Nat)⟩ rest := by
  have hrun : ({ s with bytes := s.bytes + 1 } : scanner).run 0x22
      = ({ s with bytes := s.bytes + 1, step := Step.stateInString }, Scan.scanBeginLiteral) := by
    rcases hs with hs | hs
    · simp [scanner.run, hs, stateBeginValue, isSpace]
    · simp [scanner.run, hs, stateBeginValueOrEmpty, stateBeginValue, isSpace]
  have hclose : ∀ (dst : List UInt8) (s : scanner) (d : Int), s.step = Step.stateInString →
      appendIndentLoop pfx indent ⟨dst, s, false, d⟩ (0x22 :: rest) =
        appendIndentLoop pfx indent
          ⟨dst ++ [0x22], { s with step := Step.stateEndValue, bytes := s.bytes + 1 }, false, d⟩
          rest := by
    intro dst s d hs
    rw [appendIndentLoop]
    simp [scanner.run, hs, stateInString]
  simp only [List.append_assoc, List.singleton_append, List.cons_append, List.nil_append]
  rw [appendIndentLoop]
  simp only [hrun]
  cases b
  · simp
    rw [loop_plain pfx indent bs _ _ _ _ rfl hw, hclose _ _ _ rfl]
    simp [lead, level, Nat.add_assoc]
    all_goals (congr 3; omega)
  · simp [appendNewline_succ]
    rw [loop_plain pfx indent bs _ _ _ _ rfl hw, hclose _ _ _ rfl]
    simp [lead, level, Nat.add_assoc]
    all_goals (congr 3; omega)

/-- A literal is copied, after the pending line break. -/
theorem loop_word (pfx indent : GoString) (w : Word)
    (dst : List UInt8) (s : scanner) (b : Bool) (d : Nat) (rest : List UInt8)
    (hs : s.atValue) :
    appendIndentLoop pfx indent ⟨dst, s, b, d⟩ (w.text ++ rest) =
      appendIndentLoop pfx indent
        ⟨dst ++ lead pfx indent b d ++ w.text,
         { s with step := Step.stateEndValue, bytes := s.bytes + w.text.length }, false,
         (level b d : Nat)⟩ rest := by
  cases w <;> cases b <;> rcases hs with hs | hs <;>
    simp [Word.text, appendIndentLoop, scanner.run, hs, stateBeginValueOrEmpty, stateBeginValue,
      stateLiteral, isSpace, lead, level, appendNewline_succ]

/-- An object key and its colon are copied, after the pending line break, with a
space after the colon. -/
theorem loop_key (pfx indent : GoString) (key : List UInt8)
    (dst : List UInt8) (s : scanner) (b : Bool) (d : Nat) (rest : List UInt8)
    (ps : List Parse) (hs : s.atKey) (hps : s.parseState = Parse.parseObjectKey :: ps)
    (hw : key.all isPlain = true) :
    appendIndentLoop pfx indent ⟨dst, s, b, d⟩ ([0x22] ++ key ++ [0x22, 0x3a] ++ rest) =
      appendIndentLoop pfx indent
        ⟨dst ++ lead pfx indent b d ++ ([0x22] ++ key ++ [0x22, 0x3a, 0x20]),
         { s with step := Step.stateBeginValue, parseState := Parse.parseObjectValue :: ps,
                  bytes := s.bytes + (key.length + 3) }, false,
         (level b d : Nat)⟩ rest := by
  have hrun : ({ s with bytes := s.bytes + 1 } : scanner).run 0x22
      = ({ s with bytes := s.bytes + 1, step := Step.stateInString }, Scan.scanBeginLiteral) := by
    rcases hs with hs | hs
    · simp [scanner.run, hs, stateBeginString, isSpace]
    · simp [scanner.run, hs, stateBeginStringOrEmpty, stateBeginString, isSpace]
  have hclose : ∀ (dst : List UInt8) (n : Nat) (d : Int),
      appendIndentLoop pfx indent
          ⟨dst, { s with step := Step.stateInString, bytes := n }, false, d⟩
          (0x22 :: 0x3a :: rest) =
        appendIndentLoop pfx indent
          ⟨dst ++ [0x22, 0x3a, 0x20],
           { s with step := Step.stateBeginValue, parseState := Parse.parseObjectValue :: ps,
                    bytes := n + 2 }, false, d⟩
          rest := by
    intro dst n d
    rw [appendIndentLoop]
    simp [scanner.run, stateInString]
    rw [appendIndentLoop]
    simp [scanner.run, stateEndValue, hps, isSpace]
  simp only [List.append_assoc, List.singleton_append, List.cons_append, List.nil_append]
  rw [appendIndentLoop]
  simp only [hrun]
  cases b
  · simp
    rw [loop_plain pfx indent key _ _ _ _ rfl hw, hclose]
    simp [lead, level, Nat.add_assoc]
    all_goals (congr 3; omega)
  · simp [appendNewline_succ]
    rw [loop_plain pfx indent key _ _ _ _ rfl hw, hclose]
    simp [lead, level, Nat.add_assoc]
    all_goals (congr 3; omega)

/-- An opening bracket of an array is copied, after the pending line break, and
an indent becomes pending. -/
theorem loop_open_arr (pfx indent : GoString)
    (dst : List UInt8) (s : scanner) (b : Bool) (d : Nat) (rest : List UInt8)
    (hs : s.atValue) (hdepth : s.parseState.length < maxNestingDepth) :
    appendIndentLoop pfx indent ⟨dst, s, b, d⟩ (0x5b :: rest) =
      appendIndentLoop pfx indent
        ⟨dst ++ lead pfx indent b d ++ [0x5b],
         { s with step := Step.stateBeginValueOrEmpty,
                  parseState := Parse.parseArrayValue :: s.parseState,
                  bytes := s.bytes + 1 }, true,
         (level b d : Nat)⟩ rest := by
  have hle : s.parseState.length + 1 ≤ maxNestingDepth := hdepth
  have hrun : ({ s with bytes := s.bytes + 1 } : scanner).run 0x5b
      = ({ s with bytes := s.bytes + 1, step := Step.stateBeginValueOrEmpty,
                  parseState := Parse.parseArrayValue :: s.parseState },
          Scan.scanBeginArray) := by
    rcases hs with hs | hs
    · simp [scanner.run, hs, stateBeginValue, isSpace, scanner.pushParseState, hle]
    · simp [scanner.run, hs, stateBeginValueOrEmpty, stateBeginValue, isSpace,
        scanner.pushParseState, hle]
  rw [appendIndentLoop]
  simp only [hrun]
  cases b
  · simp [lead, level]
  · simp [lead, level, appendNewline_succ]

/-- An opening brace of an object is copied, after the pending line break, and
an indent becomes pending. -/
theorem loop_open_obj (pfx indent : GoString)
    (dst : List UInt8) (s : scanner) (b : Bool) (d : Nat) (rest : List UInt8)
    (hs : s.atValue) (hdepth : s.parseState.length < maxNestingDepth) :
    appendIndentLoop pfx indent ⟨dst, s, b, d⟩ (0x7b :: rest) =
      appendIndentLoop pfx indent
        ⟨dst ++ lead pfx indent b d ++ [0x7b],
         { s with step := Step.stateBeginStringOrEmpty,
                  parseState := Parse.parseObjectKey :: s.parseState,
                  bytes := s.bytes + 1 }, true,
         (level b d : Nat)⟩ rest := by
  have hle : s.parseState.length + 1 ≤ maxNestingDepth := hdepth
  have hrun : ({ s with bytes := s.bytes + 1 } : scanner).run 0x7b
      = ({ s with bytes := s.bytes + 1, step := Step.stateBeginStringOrEmpty,
                  parseState := Parse.parseObjectKey :: s.parseState },
          Scan.scanBeginObject) := by
    rcases hs with hs | hs
    · simp [scanner.run, hs, stateBeginValue, isSpace, scanner.pushParseState, hle]
    · simp [scanner.run, hs, stateBeginValueOrEmpty, stateBeginValue, isSpace,
        scanner.pushParseState, hle]
  rw [appendIndentLoop]
  simp only [hrun]
  cases b
  · simp [lead, level]
  · simp [lead, level, appendNewline_succ]

end encodingjson

namespace encodingjson

theorem appendNewline_pred (dst : List UInt8) (pfx indent : GoString) (d : Nat) :
    appendNewline dst pfx indent (((d + 1 : Nat) : Int) - 1) = dst ++ lineBreak pfx indent d := by
  have : (((d + 1 : Nat) : Int) - 1) = (d : Int) := by push_cast; omega
  rw [this, appendNewline_nat]

/-- After a value, a comma or a closing bracket is handled by `stateEndValue`. -/
theorem run_after_value (s : scanner) (c : UInt8)
    (hstep : s.step = Step.state1 ∨ s.step = Step.stateEndValue)
    (hc : c = 0x2c ∨ c = 0x5d ∨ c = 0x7d) :
    s.run c = stateEndValue s c := by
  rcases hstep with h | h <;> rcases hc with hc | hc | hc <;> subst hc <;>
    simp [scanner.run, h, state1, state0, isDigit]

/-- A comma between array elements is copied and followed by a line break. -/
theorem loop_comma_arr (pfx indent : GoString)
    (dst : List UInt8) (s : scanner) (d : Nat) (rest : List UInt8) (ps : List Parse)
    (hstep : s.step = Step.state1 ∨ s.step = Step.stateEndValue)
    (hps : s.parseState = Parse.parseArrayValue :: ps) :
    appendIndentLoop pfx indent ⟨dst, s, false, d⟩ (0x2c :: rest) =
      appendIndentLoop pfx indent
        ⟨dst ++ [0x2c] ++ lineBreak pfx indent d,
         { s with step := Step.stateBeginValue, bytes := s.bytes + 1 }, false, d⟩ rest := by
  have hrun : ({ s with bytes := s.bytes + 1 } : scanner).run 0x2c
      = ({ s with bytes := s.bytes + 1, step := Step.stateBeginValue }, Scan.scanArrayValue) := by
    rw [run_after_value ({ s with bytes := s.bytes + 1 }) _ hstep (Or.inl rfl)]
    simp [stateEndValue, hps, isSpace]
  rw [appendIndentLoop]
  simp only [hrun]
  simp [appendNewline_nat]

/-- A comma between object members is copied and followed by a line break. -/
theorem loop_comma_obj (pfx indent : GoString)
    (dst : List UInt8) (s : scanner) (d : Nat) (rest : List UInt8) (ps : List Parse)
    (hstep : s.step = Step.state1 ∨ s.step = Step.stateEndValue)
    (hps : s.parseState = Parse.parseObjectValue :: ps) :
    appendIndentLoop pfx indent ⟨dst, s, false, d⟩ (0x2c :: rest) =
      appendIndentLoop pfx indent
        ⟨dst ++ [0x2c] ++ lineBreak pfx indent d,
         { s with step := Step.stateBeginString, parseState := Parse.parseObjectKey :: ps,
                  bytes := s.bytes + 1 }, false, d⟩ rest := by
  have hrun : ({ s with bytes := s.bytes + 1 } : scanner).run 0x2c
      = ({ s with bytes := s.bytes + 1, step := Step.stateBeginString,
                  parseState := Parse.parseObjectKey :: ps }, Scan.scanObjectValue) := by
    rw [run_after_value ({ s with bytes := s.bytes + 1 }) _ hstep (Or.inl rfl)]
    simp [stateEndValue, hps, isSpace]
  rw [appendIndentLoop]
  simp only [hrun]
  simp [appendNewline_nat]

/-- The scanner after a closing bracket: the stack is popped and the value has ended. -/
theorem pop_ended (s : scanner) :
    s.popParseState.parseState = s.parseState.tail ∧ s.popParseState.err = s.err
      ∧ (s.popParseState.step = Step.stateEndValue
          ∨ (s.parseState.tail = [] ∧ s.popParseState.endTop = true
              ∧ s.popParseState.step = Step.stateEndTop)) := by
  cases h : s.parseState.tail with
  | nil => simp [scanner.popParseState, h]
  | cons p ps => simp [scanner.popParseState, h]

/-- The closing bracket of a non-empty array goes on a line of its own, one level up. -/
theorem loop_close_arr (pfx indent : GoString)
    (dst : List UInt8) (s : scanner) (d : Nat) (rest : List UInt8) (ps : List Parse)
    (hstep : s.step = Step.state1 ∨ s.step = Step.stateEndValue)
    (hps : s.parseState = Parse.parseArrayValue :: ps) :
    appendIndentLoop pfx indent ⟨dst, s, false, ((d + 1 : Nat) : Int)⟩ (0x5d :: rest) =
      appendIndentLoop pfx indent
        ⟨dst ++ lineBreak pfx indent d ++ [0x5d],
         ({ s with bytes := s.bytes + 1 } : scanner).popParseState, false, d⟩ rest := by
  have hrun : ({ s with bytes := s.bytes + 1 } : scanner).run 0x5d
      = (({ s with bytes := s.bytes + 1 } : scanner).popParseState, Scan.scanEndArray) := by
    rw [run_after_value ({ s with bytes := s.bytes + 1 }) _ hstep (Or.inr (Or.inl rfl))]
    simp [stateEndValue, hps, isSpace]
  rw [appendIndentLoop]
  simp only [hrun]
  simp [appendNewline_nat]

/-- The closing brace of a non-empty object goes on a line of its own, one level up. -/
theorem loop_close_obj (pfx indent : GoString)
    (dst : List UInt8) (s : scanner) (d : Nat) (rest : List UInt8) (ps : List Parse)
    (hstep : s.step = Step.state1 ∨ s.step = Step.stateEndValue)
    (hps : s.parseState = Parse.parseObjectValue :: ps) :
    appendIndentLoop pfx indent ⟨dst, s, false, ((d + 1 : Nat) : Int)⟩ (0x7d :: rest) =
      appendIndentLoop pfx indent
        ⟨dst ++ lineBreak pfx indent d ++ [0x7d],
         ({ s with bytes := s.bytes + 1 } : scanner).popParseState, false, d⟩ rest := by
  have hrun : ({ s with bytes := s.bytes + 1 } : scanner).run 0x7d
      = (({ s with bytes := s.bytes + 1 } : scanner).popParseState, Scan.scanEndObject) := by
    rw [run_after_value ({ s with bytes := s.bytes + 1 }) _ hstep (Or.inr (Or.inr rfl))]
    simp [stateEndValue, hps, isSpace]
  rw [appendIndentLoop]
  simp only [hrun]
  simp [appendNewline_nat]

/-- The closing bracket of an empty array follows the opening one directly. -/
theorem loop_close_empty_arr (pfx indent : GoString)
    (dst : List UInt8) (s : scanner) (d : Nat) (rest : List UInt8) (ps : List Parse)
    (hstep : s.step = Step.stateBeginValueOrEmpty)
    (hps : s.parseState = Parse.parseArrayValue :: ps) :
    appendIndentLoop pfx indent ⟨dst, s, true, d⟩ (0x5d :: rest) =
      appendIndentLoop pfx indent
        ⟨dst ++ [0x5d], ({ s with bytes := s.bytes + 1 } : scanner).popParseState, false, d⟩
        rest := by
  have hrun : ({ s with bytes := s.bytes + 1 } : scanner).run 0x5d
      = (({ s with bytes := s.bytes + 1 } : scanner).popParseState, Scan.scanEndArray) := by
    simp [scanner.run, hstep, stateBeginValueOrEmpty, stateEndValue, hps, isSpace]
  rw [appendIndentLoop]
  simp only [hrun]
  simp

/-- The closing brace of an empty object follows the opening one directly. -/
theorem loop_close_empty_obj (pfx indent : GoString)
    (dst : List UInt8) (s : scanner) (d : Nat) (rest : List UInt8) (ps : List Parse)
    (hstep : s.step = Step.stateBeginStringOrEmpty)
    (hps : s.parseState = Parse.parseObjectKey :: ps) :
    appendIndentLoop pfx indent ⟨dst, s, true, d⟩ (0x7d :: rest) =
      appendIndentLoop pfx indent
        ⟨dst ++ [0x7d],
         ({ s with bytes := s.bytes + 1, parseState := Parse.parseObjectValue :: ps } :
            scanner).popParseState, false, d⟩
        rest := by
  have hrun : ({ s with bytes := s.bytes + 1 } : scanner).run 0x7d
      = (({ s with bytes := s.bytes + 1, parseState := Parse.parseObjectValue :: ps } :
            scanner).popParseState, Scan.scanEndObject) := by
    simp [scanner.run, hstep, stateBeginStringOrEmpty, stateEndValue, hps, isSpace]
  rw [appendIndentLoop]
  simp only [hrun]
  simp

end encodingjson

namespace encodingjson

theorem ended_inside (s1 s2 : scanner) (top : Parse) (ps : List Parse)
    (h : s1.ended s2) (hps : s1.parseState = top :: ps) :
    (s2.step = Step.state1 ∨ s2.step = Step.stateEndValue) ∧ s2.parseState = top :: ps := by
  obtain ⟨h1, _, h3⟩ := h
  refine ⟨?_, by rw [h1, hps]⟩
  rcases h3 with h | h | ⟨h, _, _⟩
  · exact Or.inl h
  · exact Or.inr h
  · rw [hps] at h; cases h

mutual
/-- The loop of `appendIndent` turns the compact text of a value into its
indented text, after the pending line break. -/
theorem loop_value (pfx indent : GoString) :
    ∀ (v : Json) (dst : List UInt8) (s : scanner) (b : Bool) (d : Nat) (rest : List UInt8),
      s.atValue → v.wf = true → s.parseState.length + v.depth ≤ maxNestingDepth →
      ∃ s2, s.ended s2 ∧
        appendIndentLoop pfx indent ⟨dst, s, b, d⟩ (v.compact ++ rest) =
          appendIndentLoop pfx indent
            ⟨dst ++ lead pfx indent b d ++ v.indented pfx indent (level b d), s2, false,
             (level b d : Nat)⟩ rest
  | Json.word w, dst, s, b, d, rest, hs, _, _ => by
    refine ⟨{ s with step := Step.stateEndValue, bytes := s.bytes + w.text.length },
      ⟨rfl, rfl, Or.inr (Or.inl rfl)⟩, ?_⟩
    simp only [Json.compact, Json.indented]
    exact loop_word pfx indent w dst s b d rest hs
  | Json.num first digits, dst, s, b, d, rest, hs, hw, _ => by
    refine ⟨{ s with step := Step.state1, bytes := s.bytes + (1 + digits.length) },
      ⟨rfl, rfl, Or.inl rfl⟩, ?_⟩
    simp only [Json.compact, Json.indented]
    exact loop_num pfx indent first digits dst s b d rest hs hw
  | Json.str bs, dst, s, b, d, rest, hs, hw, _ => by
    refine ⟨{ s with step := Step.stateEndValue, bytes := s.bytes + (bs.length + 2) },
      ⟨rfl, rfl, Or.inr (Or.inl rfl)⟩, ?_⟩
    simp only [Json.compact, Json.indented]
    exact loop_str pfx indent bs dst s b d rest hs (by simpa [Json.wf] using hw)
  | Json.emptyArr, dst, s, b, d, rest, hs, _, hd => by
    have hlt : s.parseState.length < maxNestingDepth := by simp [Json.depth] at hd; omega
    have hp := pop_ended
      ({ s with step := Step.stateBeginValueOrEmpty,
                parseState := Parse.parseArrayValue :: s.parseState,
                bytes := s.bytes + 1 + 1 } : scanner)
    refine ⟨_, ⟨hp.1, hp.2.1, Or.inr hp.2.2⟩, ?_⟩
    simp only [Json.compact, Json.indented, List.cons_append, List.nil_append]
    rw [loop_open_arr pfx indent dst s b d _ hs hlt,
      loop_close_empty_arr pfx indent _ _ _ _ s.parseState rfl rfl]
    simp
  | Json.emptyObj, dst, s, b, d, rest, hs, _, hd => by
    have hlt : s.parseState.length < maxNestingDepth := by simp [Json.depth] at hd; omega
    have hp := pop_ended
      ({ s with step := Step.stateBeginStringOrEmpty,
                parseState := Parse.parseObjectValue :: s.parseState,
                bytes := s.bytes + 1 + 1 } : scanner)
    refine ⟨_, ⟨hp.1, hp.2.1, Or.inr hp.2.2⟩, ?_⟩
    simp only [Json.compact, Json.indented, List.cons_append, List.nil_append]
    rw [loop_open_obj pfx indent dst s b d _ hs hlt,
      loop_close_empty_obj pfx indent _ _ _ _ s.parseState rfl rfl]
    simp
  | Json.arr first more, dst, s, b, d, rest, hs, hw, hd => by
    simp only [Json.wf, Bool.and_eq_true] at hw
    simp only [Json.depth] at hd
    have hlt : s.parseState.length < maxNestingDepth := by omega
    have hd1 : s.parseState.length + 1 + first.depth ≤ maxNestingDepth := by
      have := Nat.le_max_left first.depth more.depth; omega
    have hd2 : s.parseState.length + 1 + more.depth ≤ maxNestingDepth := by
      have := Nat.le_max_right first.depth more.depth; omega
    obtain ⟨s1, he1, h1⟩ := loop_value pfx indent first (dst ++ lead pfx indent b d ++ [0x5b])
      ({ s with step := Step.stateBeginValueOrEmpty,
                parseState := Parse.parseArrayValue :: s.parseState,
                bytes := s.bytes + 1 } : scanner) true (level b d)
      (more.compact ++ [0x5d] ++ rest) (Or.inr rfl) hw.1 (by simpa using hd1)
    have hin1 := ended_inside _ _ _ s.parseState he1 rfl
    obtain ⟨s2, hin2, herr2, h2⟩ := loop_items pfx indent more
      (dst ++ lead pfx indent b d ++ [0x5b] ++ lead pfx indent true (level b d)
        ++ first.indented pfx indent (level true (level b d)))
      s1 (level true (level b d)) ([0x5d] ++ rest) s.parseState hin1.1 hin1.2 hw.2
      (by rw [hin1.2]; simpa [Nat.add_comm, Nat.add_left_comm, Nat.add_assoc] using hd2)
    have hp := pop_ended ({ s2 with bytes := s2.bytes + 1 } : scanner)
    refine ⟨({ s2 with bytes := s2.bytes + 1 } : scanner).popParseState, ?_, ?_⟩
    · unfold scanner.ended
      refine ⟨?_, ?_, ?_⟩
      · rw [hp.1]; simp [hin2.2]
      · rw [hp.2.1]; simp [herr2, he1.2.1]
      · rcases hp.2.2 with h | ⟨h, h', h''⟩
        · exact Or.inr (Or.inl h)
        · refine Or.inr (Or.inr ⟨?_, h', h''⟩)
          simpa [hin2.2] using h
    · simp only [Json.compact, Json.indented, List.cons_append, List.nil_append,
        List.append_assoc, List.singleton_append]
      rw [loop_open_arr pfx indent dst s b d _ hs hlt]
      simp only [List.append_assoc, List.singleton_append, List.cons_append,
        List.nil_append] at h1 h2 ⊢
      rw [h1, h2]
      have hl : ((level true (level b d) : Nat) : Int) = ((level b d + 1 : Nat) : Int) := by
        simp [level]
      rw [hl, loop_close_arr pfx indent _ s2 (level b d) rest s.parseState hin2.1 hin2.2]
      simp [lead, level]
  | Json.obj key first more, dst, s, b, d, rest, hs, hw, hd => by
    simp only [Json.wf, Bool.and_eq_true] at hw
    simp only [Json.depth] at hd
    have hlt : s.parseState.length < maxNestingDepth := by omega
    have hd1 : s.parseState.length + 1 + first.depth ≤ maxNestingDepth := by
      have := Nat.le_max_left first.depth more.depth; omega
    have hd2 : s.parseState.length + 1 + more.depth ≤ maxNestingDepth := by
      have := Nat.le_max_right first.depth more.depth; omega
    obtain ⟨s1, he1, h1⟩ := loop_value pfx indent first
      (dst ++ lead pfx indent b d ++ [0x7b] ++ lead pfx indent true (level b d)
        ++ ([0x22] ++ key ++ [0x22, 0x3a, 0x20]))
      ({ s with step := Step.stateBeginValue,
                parseState := Parse.parseObjectValue :: s.parseState,
                bytes := s.bytes + 1 + (key.length + 3) } : scanner) false (level true (level b d))
      (more.compact ++ [0x7d] ++ rest) (Or.inl rfl) hw.1.2 (by simpa using hd1)
    have hin1 := ended_inside _ _ _ s.parseState he1 rfl
    obtain ⟨s2, hin2, herr2, h2⟩ := loop_members pfx indent more
      (dst ++ lead pfx indent b d ++ [0x7b] ++ lead pfx indent true (level b d)
        ++ ([0x22] ++ key ++ [0x22, 0x3a, 0x20])
        ++ lead pfx indent false (level true (level b d))
        ++ first.indented pfx indent (level false (level true (level b d))))
      s1 (level false (level true (level b d))) ([0x7d] ++ rest) s.parseState hin1.1 hin1.2 hw.2
      (by rw [hin1.2]; simpa [Nat.add_comm, Nat.add_left_comm, Nat.add_assoc] using hd2)
    have hp := pop_ended ({ s2 with bytes := s2.bytes + 1 } : scanner)
    refine ⟨({ s2 with bytes := s2.bytes + 1 } : scanner).popParseState, ?_, ?_⟩
    · unfold scanner.ended
      refine ⟨?_, ?_, ?_⟩
      · rw [hp.1]; simp [hin2.2]
      · rw [hp.2.1]; simp [herr2, he1.2.1]
      · rcases hp.2.2 with h | ⟨h, h', h''⟩
        · exact Or.inr (Or.inl h)
        · refine Or.inr (Or.inr ⟨?_, h', h''⟩)
          simpa [hin2.2] using h
    · simp only [Json.compact, Json.indented, List.cons_append, List.nil_append,
        List.append_assoc, List.singleton_append]
      rw [loop_open_obj pfx indent dst s b d _ hs hlt]
      have hk := loop_key pfx indent key (dst ++ lead pfx indent b d ++ [0x7b])
        ({ s with step := Step.stateBeginStringOrEmpty,
                  parseState := Parse.parseObjectKey :: s.parseState,
                  bytes := s.bytes + 1 } : scanner) true (level b d)
        (first.compact ++ (more.compact ++ ([0x7d] ++ rest))) s.parseState (Or.inr rfl) rfl hw.1.1
      simp only [List.append_assoc, List.singleton_append, List.cons_append,
        List.nil_append] at hk h1 h2 ⊢
      rw [hk, h1, h2]
      have hl : ((level false (level true (level b d)) : Nat) : Int)
          = ((level b d + 1 : Nat) : Int) := by
        simp [level]
      rw [hl, loop_close_obj pfx indent _ s2 (level b d) rest s.parseState hin2.1 hin2.2]
      simp [lead, level]
/-- The loop of `appendIndent` on the further elements of an array. -/
theorem loop_items (pfx indent : GoString) :
    ∀ (more : Items) (dst : List UInt8) (s : scanner) (d : Nat) (rest : List UInt8)
      (ps : List Parse),
      (s.step = Step.state1 ∨ s.step = Step.stateEndValue) →
      s.parseState = Parse.parseArrayValue :: ps → more.wf = true →
      s.parseState.length + more.depth ≤ maxNestingDepth →
      ∃ s2, ((s2.step = Step.state1 ∨ s2.step = Step.stateEndValue)
              ∧ s2.parseState = Parse.parseArrayValue :: ps) ∧ s2.err = s.err ∧
        appendIndentLoop pfx indent ⟨dst, s, false, d⟩ (more.compact ++ rest) =
          appendIndentLoop pfx indent ⟨dst ++ more.indented pfx indent d, s2, false, d⟩ rest
  | Items.nil, dst, s, d, rest, ps, hstep, hps, _, _ => by
    exact ⟨s, ⟨hstep, hps⟩, rfl, by simp [Items.compact, Items.indented]⟩
  | Items.cons v more, dst, s, d, rest, ps, hstep, hps, hw, hd => by
    simp only [Items.wf, Bool.and_eq_true] at hw
    simp only [Items.depth] at hd
    have hd1 : s.parseState.length + v.depth ≤ maxNestingDepth := by
      have := Nat.le_max_left v.depth more.depth; omega
    have hd2 : s.parseState.length + more.depth ≤ maxNestingDepth := by
      have := Nat.le_max_right v.depth more.depth; omega
    obtain ⟨s1, he1, h1⟩ := loop_value pfx indent v (dst ++ [0x2c] ++ lineBreak pfx indent d)
      ({ s with step := Step.stateBeginValue, bytes := s.bytes + 1 } : scanner) false d
      (more.compact ++ rest) (Or.inl rfl) hw.1 (by simpa using hd1)
    have hin1 := ended_inside _ _ Parse.parseArrayValue ps he1 (by simpa using hps)
    obtain ⟨s2, hin2, herr2, h2⟩ := loop_items pfx indent more
      (dst ++ [0x2c] ++ lineBreak pfx indent d ++ lead pfx indent false d
        ++ v.indented pfx indent (level false d))
      s1 (level false d) rest ps hin1.1 hin1.2 hw.2 (by rw [hin1.2, ← hps]; exact hd2)
    refine ⟨s2, hin2, by rw [herr2, he1.2.1], ?_⟩
    simp only [Items.compact, Items.indented, List.cons_append, List.nil_append,
      List.append_assoc, List.singleton_append]
    rw [loop_comma_arr pfx indent dst s d _ ps hstep hps]
    simp only [List.append_assoc, List.singleton_append, List.cons_append,
      List.nil_append] at h1 h2 ⊢
    rw [h1, h2]
    simp [lead, level]
/-- The loop of `appendIndent` on the further members of an object. -/
theorem loop_members (pfx indent : GoString) :
    ∀ (more : Members) (dst : List UInt8) (s : scanner) (d : Nat) (rest : List UInt8)
      (ps : List Parse),
      (s.step = Step.state1 ∨ s.step = Step.stateEndValue) →
      s.parseState = Parse.parseObjectValue :: ps → more.wf = true →
      s.parseState.length + more.depth ≤ maxNestingDepth →
      ∃ s2, ((s2.step = Step.state1 ∨ s2.step = Step.stateEndValue)
              ∧ s2.parseState = Parse.parseObjectValue :: ps) ∧ s2.err = s.err ∧
        appendIndentLoop pfx indent ⟨dst, s, false, d⟩ (more.compact ++ rest) =
          appendIndentLoop pfx indent ⟨dst ++ more.indented pfx indent d, s2, false, d⟩ rest
  | Members.nil, dst, s, d, rest, ps, hstep, hps, _, _ => by
    exact ⟨s, ⟨hstep, hps⟩, rfl, by simp [Members.compact, Members.indented]⟩
  | Members.cons key v more, dst, s, d, rest, ps, hstep, hps, hw, hd => by
    simp only [Members.wf, Bool.and_eq_true] at hw
    simp only [Members.depth] at hd
    have hd1 : s.parseState.length + v.depth ≤ maxNestingDepth := by
      have := Nat.le_max_left v.depth more.depth; omega
    have hd2 : s.parseState.length + more.depth ≤ maxNestingDepth := by
      have := Nat.le_max_right v.depth more.depth; omega
    obtain ⟨s1, he1, h1⟩ := loop_value pfx indent v
      (dst ++ [0x2c] ++ lineBreak pfx indent d ++ lead pfx indent false d
        ++ ([0x22] ++ key ++ [0x22, 0x3a, 0x20]))
      ({ s with step := Step.stateBeginValue, parseState := Parse.parseObjectValue :: ps,
                bytes := s.bytes + 1 + (key.length + 3) } : scanner) false (level false d)
      (more.compact ++ rest) (Or.inl rfl) hw.1.2 (by simpa [hps] using hd1)
    have hin1 := ended_inside _ _ Parse.parseObjectValue ps he1 rfl
    obtain ⟨s2, hin2, herr2, h2⟩ := loop_members pfx indent more
      (dst ++ [0x2c] ++ lineBreak pfx indent d ++ lead pfx indent false d
        ++ ([0x22] ++ key ++ [0x22, 0x3a, 0x20])
        ++ lead pfx indent false (level false d)
        ++ v.indented pfx indent (level false (level false d)))
      s1 (level false (level false d)) rest ps hin1.1 hin1.2 hw.2
      (by rw [hin1.2, ← hps]; exact hd2)
    refine ⟨s2, hin2, by rw [herr2, he1.2.1], ?_⟩
    simp only [Members.compact, Members.indented, List.cons_append, List.nil_append,
      List.append_assoc, List.singleton_append]
    rw [loop_comma_obj pfx indent dst s d _ ps hstep hps]
    have hk := loop_key pfx indent key (dst ++ [0x2c] ++ lineBreak pfx indent d)
      ({ s with step := Step.stateBeginString, parseState := Parse.parseObjectKey :: ps,
                bytes := s.bytes + 1 } : scanner) false d
      (v.compact ++ (more.compact ++ rest)) ps (Or.inl rfl) rfl hw.1.1
    simp only [List.append_assoc, List.singleton_append, List.cons_append,
      List.nil_append] at hk h1 h2 ⊢
    rw [hk, h1, h2]
    simp [lead, level]
end

end encodingjson

namespace encodingjson

theorem loop_nil (pfx indent : GoString) (vars : IndentVars) :
    appendIndentLoop pfx indent vars [] = vars := by
  rw [appendIndentLoop]

/-- At the end of the input a scanner that has read one complete top-level value
reports the end and no error. -/
theorem eof_ended (s : scanner) (hps : s.parseState = []) (herr : s.err = none)
    (hstep : s.step = Step.state1 ∨ s.step = Step.stateEndValue
      ∨ (s.endTop = true ∧ s.step = Step.stateEndTop)) :
    s.eof.2 = Scan.scanEnd := by
  by_cases he : s.endTop = true
  · simp [scanner.eof, herr, he]
  · rcases hstep with h | h | ⟨h, _⟩
    · simp [scanner.eof, herr, he, scanner.run, h, state1, state0, stateEndValue, hps,
        stateEndTop, isSpace, isDigit]
    · simp [scanner.eof, herr, he, scanner.run, h, stateEndValue, hps, stateEndTop, isSpace]
    · exact absurd h he

/-- The function `appendIndent` turns the compact text of a well-formed value of
nesting depth at most `maxNestingDepth` into its indented text. -/
theorem appendIndent_compact (pfx indent : GoString) (v : Json) (hw : v.wf = true)
    (hd : v.depth ≤ maxNestingDepth) :
    appendIndent v.compact pfx indent = Except.ok (v.indented pfx indent 0) := by
  obtain ⟨s2, he, h⟩ := loop_value pfx indent v [] newScanner false 0 [] (Or.inl rfl) hw
    (by simpa [newScanner] using hd)
  simp only [List.append_nil, loop_nil, lead, level, Bool.false_eq_true, if_false,
    List.nil_append] at h
  obtain ⟨h1, h2, h3⟩ := he
  have hend : s2.eof.2 = Scan.scanEnd := by
    apply eof_ended s2 (by rw [h1]; rfl) (by rw [h2]; rfl)
    rcases h3 with h | h | ⟨_, h, h'⟩
    · exact Or.inl h
    · exact Or.inr (Or.inl h)
    · exact Or.inr (Or.inr ⟨h, h'⟩)
  unfold appendIndent
  have h0 : ((0 : Nat) : Int) = 0 := rfl
  rw [h0] at h
  simp only [h, hend]
  simp

set_option maxRecDepth 100000 in
theorem first_digit_not_newline : ∀ c : UInt8, (0x31 ≤ c && c ≤ 0x39) = true → c ≠ 0x0a := by
  apply forall_byte
  decide

/-- The compact text of a well-formed value does not begin with a newline. -/
theorem compact_head (v : Json) (hw : v.wf = true) :
    ∃ c t, v.compact = c :: t ∧ c ≠ 0x0a := by
  cases v with
  | word w =>
    cases w
    · exact ⟨0x74, [0x72, 0x75, 0x65], by simp [Json.compact, Word.text], by decide⟩
    · exact ⟨0x66, [0x61, 0x6c, 0x73, 0x65], by simp [Json.compact, Word.text], by decide⟩
    · exact ⟨0x6e, [0x75, 0x6c, 0x6c], by simp [Json.compact, Word.text], by decide⟩
  | num first digits =>
    simp only [Json.wf, Bool.and_eq_true] at hw
    exact ⟨first, digits, by simp [Json.compact], first_digit_not_newline first (by simpa using hw.1)⟩
  | str s => exact ⟨0x22, s ++ [0x22], by simp [Json.compact], by decide⟩
  | emptyArr => exact ⟨0x5b, [0x5d], by simp [Json.compact], by decide⟩
  | emptyObj => exact ⟨0x7b, [0x7d], by simp [Json.compact], by decide⟩
  | arr first more =>
    exact ⟨0x5b, first.compact ++ (more.compact ++ [0x5d]), by simp [Json.compact], by decide⟩
  | obj key first more =>
    exact ⟨0x7b, 0x22 :: (key ++ 0x22 :: 0x3a :: (first.compact ++ (more.compact ++ [0x7d]))),
      by simp [Json.compact], by decide⟩

/-- The indented text of a well-formed value is its compact text exactly when the
value is a scalar, `[]` or `{}`; this holds for every prefix and indent, the
empty ones included. -/
theorem indented_eq_compact_iff (pfx indent : GoString) (v : Json) (hw : v.wf = true) :
    v.indented pfx indent 0 = v.compact ↔ v.flat = true := by
  cases v with
  | word w => simp [Json.indented, Json.compact, Json.flat]
  | num first digits => simp [Json.indented, Json.compact, Json.flat]
  | str s => simp [Json.indented, Json.compact, Json.flat]
  | emptyArr => simp [Json.indented, Json.compact, Json.flat]
  | emptyObj => simp [Json.indented, Json.compact, Json.flat]
  | arr first more =>
    simp only [Json.wf, Bool.and_eq_true] at hw
    obtain ⟨c, t, hc, hne⟩ := compact_head first hw.1
    simp [Json.indented, Json.compact, Json.flat, lineBreak, hc]
    intro h
    exact absurd h.symm hne
  | obj key first more =>
    simp [Json.indented, Json.compact, Json.flat, lineBreak]

end encodingjson

/-! ## The claims -/

/-- C1, as stated, fails: a response with status 200 whose body `{"x":1}` would
decode cleanly, but whose read ended with an error, makes `parseResponse` return
an `Error` although the status code is below 400 and the decoder does not
reject the body. -/
theorem parseResponse_error_on_read_failure :
    (parseResponse sampleLib res200ReadErr { X := 0 }).err =
        some (GoError.Error 200 bodyX1 (GoError.ext readErr))
      ∧ ¬ (res200ReadErr.StatusCode ≥ 400)
      ∧ (sampleLib.Unmarshal res200ReadErr.Body.data { X := 0 }).2 = none := by
  decide

/-- C1, amended: `parseResponse` returns an `Error` value if and only if the
status code is at least 400, or reading the body failed, or the body failed to
decode into the target; it returns no error exactly in the remaining case, and
it never returns an error of another kind. -/
theorem parseResponse_error_iff {Req T : Type} (lib : Lib Req T) (res : Response) (t : T) :
    ((∃ cause, (parseResponse lib res t).err =
          some (GoError.Error res.StatusCode (string res.Body.data) cause))
        ↔ (res.StatusCode ≥ 400 ∨ res.Body.err ≠ none
            ∨ (lib.Unmarshal res.Body.data t).2 ≠ none))
      ∧ ((parseResponse lib res t).err = none
        ↔ ¬ (res.StatusCode ≥ 400 ∨ res.Body.err ≠ none
            ∨ (lib.Unmarshal res.Body.data t).2 ≠ none)) := by
  by_cases h : res.StatusCode ≥ 400
  · rw [parseResponse_status lib res t h]; simp [h]
  · have h' : res.StatusCode < 400 := not_le.mp h
    cases hr : res.Body.err with
    | some e => rw [parseResponse_readErr lib res t h' e hr]; simp
    | none =>
      cases hd : (lib.Unmarshal res.Body.data t).2 with
      | some e => rw [parseResponse_decodeErr lib res t h' hr e hd]; simp
      | none => rw [parseResponse_ok lib res t h' hr hd]; simp [h]

/-- C2: for a response with status code below 400 whose body is read completely
and decodes cleanly, `parseResponse` returns no error and leaves in the target
the value `json.Unmarshal` decodes from the body bytes; so do `Client.Get` and
`Client.Post` when their transport call returns that response. -/
theorem parseResponse_success {Req T : Type} (lib : Lib Req T) (res : Response) (t : T)
    (h : res.StatusCode < 400) (hr : res.Body.err = none)
    (hd : (lib.Unmarshal res.Body.data t).2 = none) :
    ((parseResponse lib res t).err = none
        ∧ (parseResponse lib res t).target = (lib.Unmarshal res.Body.data t).1)
      ∧ (∀ (c : Client) (url : GoString), c.HTTPClient.Get url = Except.ok res →
          (Client.Get lib c url t).err = none
            ∧ (Client.Get lib c url t).target = (lib.Unmarshal res.Body.data t).1)
      ∧ (∀ (c : Client) (url : GoString) (request : Req) (body : List UInt8),
          lib.MarshalIndent request (lit "") c.Indent = Except.ok body →
          lib.urlParse url = none →
          c.HTTPClient.Do (sentRequest c url body) = Except.ok res →
          (Client.Post lib c url request t).err = none
            ∧ (Client.Post lib c url request t).target = (lib.Unmarshal res.Body.data t).1) := by
  have hp := parseResponse_ok lib res t h hr hd
  refine ⟨?_, ?_, ?_⟩
  · rw [hp]; exact ⟨rfl, rfl⟩
  · intro c url hg
    rw [Get_parse lib c url t res hg, hp]; exact ⟨rfl, rfl⟩
  · intro c url request body hm hu hdo
    rw [Post_parse lib c url request t body res hm hu hdo, hp]; exact ⟨rfl, rfl⟩

/-- C2, at the example of the specification: status 200 with body `{"x":1}` into
a target shaped `{X int}` yields `X = 1` and no error, through `parseResponse`,
`Client.Get` and `Client.Post`. -/
theorem parseResponse_success_witness :
    (res200.StatusCode < 400 ∧ res200.Body.err = none
        ∧ (sampleLib.Unmarshal res200.Body.data { X := 0 }).2 = none)
      ∧ ((parseResponse sampleLib res200 { X := 0 }).err = none
        ∧ (parseResponse sampleLib res200 { X := 0 }).target = { X := 1 })
      ∧ ((Client.Get sampleLib (NewClient (serverClient res200)) sampleURL { X := 0 }).err = none
        ∧ (Client.Get sampleLib (NewClient (serverClient res200)) sampleURL { X := 0 }).target
            = { X := 1 })
      ∧ ((Client.Post sampleLib (NewClient (serverClient res200)) sampleURL (some (lit "7"))
            { X := 0 }).err = none
        ∧ (Client.Post sampleLib (NewClient (serverClient res200)) sampleURL (some (lit "7"))
            { X := 0 }).target = { X := 1 }) :=
  have hyp : res200.StatusCode < 400 ∧ res200.Body.err = none
      ∧ (sampleLib.Unmarshal res200.Body.data { X := 0 }).2 = none := by decide
  have thm := parseResponse_success sampleLib res200 { X := 0 } hyp.1 hyp.2.1 hyp.2.2
  ⟨hyp, thm.1,
    thm.2.1 (NewClient (serverClient res200)) sampleURL rfl,
    thm.2.2 (NewClient (serverClient res200)) sampleURL (some (lit "7")) (lit "7") rfl rfl rfl⟩

/-- C3: for a response with status code 400 or more, `parseResponse` returns an
`Error` whose cause is the error `got HTTP <status>`, whatever the body bytes
are, whether or not they decode, and whether or not reading them failed. -/
theorem parseResponse_status_cause {Req T : Type} (lib : Lib Req T) (res : Response) (t : T)
    (h : res.StatusCode ≥ 400) :
    (parseResponse lib res t).err =
      some (GoError.Error res.StatusCode (string res.Body.data)
        (GoError.errorf (lit "got HTTP " ++ res.Status))) := by
  rw [parseResponse_status lib res t h]; rfl

/-- C3, at three responses with status 500: a body that is valid JSON for the
target, a body that is not, and a body whose read failed. -/
theorem parseResponse_status_cause_witness :
    res500Valid.StatusCode ≥ 400
      ∧ (parseResponse sampleLib res500Valid { X := 0 }).err =
          some (GoError.Error 500 bodyX1
            (GoError.errorf (lit "got HTTP 500 Internal Server Error")))
      ∧ (parseResponse sampleLib { res500Valid with Body := { data := some (lit "oops"),
                                                              err := none } } { X := 0 }).err =
          some (GoError.Error 500 (lit "oops")
            (GoError.errorf (lit "got HTTP 500 Internal Server Error")))
      ∧ (parseResponse sampleLib { res500Valid with Body := { data := none,
                                                              err := some readErr } } { X := 0 }).err =
          some (GoError.Error 500 (lit "")
            (GoError.errorf (lit "got HTTP 500 Internal Server Error"))) :=
  ⟨by decide,
    parseResponse_status_cause sampleLib res500Valid { X := 0 } (by decide),
    parseResponse_status_cause sampleLib _ { X := 0 } (by decide),
    parseResponse_status_cause sampleLib _ { X := 0 } (by decide)⟩

/-- C4, as stated, fails: a response with status 200 whose body `{"x":` is not
valid JSON, and whose read ended with an error, yields an `Error` whose cause is
the read error, not the error the JSON decoder returns for these bytes; the
decoder is not called. -/
theorem parseResponse_invalid_body_read_failure :
    res200Truncated.StatusCode < 400
      ∧ (sampleLib.Unmarshal res200Truncated.Body.data { X := 0 }).2 = some decodeErr
      ∧ parseResponse sampleLib res200Truncated { X := 0 } =
          { err := some (GoError.Error 200 (lit "\x7b\"x\":") (GoError.ext readErr)),
            target := { X := 0 }, calls := [Call.ReadAll, Call.Close] }
      ∧ GoError.ext readErr ≠ GoError.ext decodeErr := by
  decide

/-- C4, amended: for a response with status code below 400 whose body was read
without error and is rejected by the JSON decoder, `parseResponse` returns an
`Error` whose `Body` is the raw body text, whose `StatusCode` is the response's
status code and whose cause is the decoder's error, not a status error. -/
theorem parseResponse_decode_failure {Req T : Type} (lib : Lib Req T) (res : Response) (t : T)
    (h : res.StatusCode < 400) (hr : res.Body.err = none) (e : ExtError)
    (hd : (lib.Unmarshal res.Body.data t).2 = some e) :
    (parseResponse lib res t).err =
        some (GoError.Error res.StatusCode (string res.Body.data) (GoError.ext e))
      ∧ GoError.ext e ≠ Errorf (lit "got HTTP ") res.Status := by
  rw [parseResponse_decodeErr lib res t h hr e hd]
  exact ⟨rfl, by simp [Errorf]⟩

/-- C4, amended, at the example of the specification: status 200 with the
invalid body `not json`. -/
theorem parseResponse_decode_failure_witness :
    (res200Invalid.StatusCode < 400 ∧ res200Invalid.Body.err = none
        ∧ (sampleLib.Unmarshal res200Invalid.Body.data { X := 0 }).2 = some decodeErr)
      ∧ (parseResponse sampleLib res200Invalid { X := 0 }).err =
          some (GoError.Error 200 (lit "not json") (GoError.ext decodeErr))
      ∧ GoError.ext decodeErr ≠ Errorf (lit "got HTTP ") res200Invalid.Status :=
  ⟨by decide,
    parseResponse_decode_failure sampleLib res200Invalid { X := 0 } (by decide) (by decide)
      decodeErr (by decide)⟩

/-- C5, as stated, fails: for a response with status 502 whose body could not be
read to its end (the read returned the bytes `<html>` and an error), the `Body`
of the returned `Error` is the text `<html>` of the bytes read so far, not the
empty text. -/
theorem parseResponse_unreadable_body_not_empty :
    res502Partial.Body.err = some readErr
      ∧ (parseResponse sampleLib res502Partial { X := 0 }).err =
          some (GoError.Error 502 (lit "<html>") (GoError.errorf (lit "got HTTP 502 Bad Gateway")))
      ∧ lit "<html>" ≠ lit "" := by
  decide

/-- C5, amended: whenever `parseResponse` returns an error, it is an `Error` whose
`StatusCode` is the response's status code and whose `Body` is the text of the
bytes the read returned; `Body` is the empty text when the read returned no bytes
(the nil slice or an empty one). -/
theorem parseResponse_error_fields {Req T : Type} (lib : Lib Req T) (res : Response) (t : T)
    (e : GoError) (h : (parseResponse lib res t).err = some e) :
    (∃ cause, e = GoError.Error res.StatusCode (string res.Body.data) cause)
      ∧ (res.Body.data = none ∨ res.Body.data = some [] →
          ∃ cause, e = GoError.Error res.StatusCode (lit "") cause) := by
  have hex : ∃ cause, e = GoError.Error res.StatusCode (string res.Body.data) cause := by
    have hiff := (parseResponse_error_shape lib res t)
    rcases hiff with hnone | ⟨cause, hc⟩
    · rw [hnone] at h; cases h
    · rw [hc] at h; exact ⟨cause, (Option.some.inj h).symm⟩
  refine ⟨hex, ?_⟩
  intro hdata
  obtain ⟨cause, hc⟩ := hex
  refine ⟨cause, ?_⟩
  rcases hdata with hd | hd <;> rw [hc, hd] <;> rfl

/-- C5, amended, at the examples of the specification: status 500 with an empty body
yields `StatusCode = 500` and `Body = ""`; status 404 with body `not found`
yields `StatusCode = 404` and `Body = "not found"`. -/
theorem parseResponse_error_fields_witness :
    (parseResponse sampleLib res500Empty { X := 0 }).err =
        some (GoError.Error 500 (lit "")
          (GoError.errorf (lit "got HTTP 500 Internal Server Error")))
      ∧ (∃ cause, GoError.Error 500 (lit "")
            (GoError.errorf (lit "got HTTP 500 Internal Server Error"))
          = GoError.Error res500Empty.StatusCode (lit "") cause)
      ∧ (parseResponse sampleLib res404 { X := 0 }).err =
        some (GoError.Error 404 (lit "not found") (GoError.errorf (lit "got HTTP 404 Not Found")))
      ∧ (∃ cause, GoError.Error 404 (lit "not found") (GoError.errorf (lit "got HTTP 404 Not Found"))
          = GoError.Error res404.StatusCode (string res404.Body.data) cause) :=
  ⟨by decide,
    (parseResponse_error_fields sampleLib res500Empty { X := 0 } _ (by decide)).2
      (Or.inr rfl),
    by decide,
    (parseResponse_error_fields sampleLib res404 { X := 0 } _ (by decide)).1⟩

/-- C10: for a response with status code 400 or more, `parseResponse` does not
call the decoder, and the target is left as it was, whatever the body is. -/
theorem parseResponse_status_no_decode {Req T : Type} (lib : Lib Req T) (res : Response)
    (t : T) (h : res.StatusCode ≥ 400) :
    (parseResponse lib res t).target = t
      ∧ ∀ data, Call.Unmarshal data ∉ (parseResponse lib res t).calls := by
  rw [parseResponse_status lib res t h]
  exact ⟨rfl, by simp⟩

/-- C10, at status 500 with the body `{"x":1}`, which the decoder would accept
and decode to `X = 1`: the target keeps `X = 0`. -/
theorem parseResponse_status_no_decode_witness :
    res500Valid.StatusCode ≥ 400
      ∧ (sampleLib.Unmarshal res500Valid.Body.data { X := 0 }) = ({ X := 1 }, none)
      ∧ (parseResponse sampleLib res500Valid { X := 0 }).target = { X := 0 }
      ∧ ∀ data, Call.Unmarshal data ∉ (parseResponse sampleLib res500Valid { X := 0 }).calls :=
  ⟨by decide, by decide,
    parseResponse_status_no_decode sampleLib res500Valid { X := 0 } (by decide)⟩

/-- C6: every request that `Client.Post` hands to the transport has method
`POST`, carries the serialized request value as its body, has `Content-Type`
equal to `application/json`, has `Authorization` equal to the client's
`AuthorizationHeader` when that is non-empty and no `Authorization` header when
it is empty; and such a request is handed over whenever the request value
serializes and the URL parses. -/
theorem Post_request_headers {Req T : Type} (lib : Lib Req T) (c : Client) (url : GoString)
    (request : Req) (t : T) :
    (∀ rq, Call.ClientDo rq ∈ (Client.Post lib c url request t).calls →
        rq.Method = lit "POST"
          ∧ lib.MarshalIndent request (lit "") c.Indent = Except.ok rq.Body
          ∧ rq.Header.Values (lit "Content-Type") = some [lit "application/json"]
          ∧ (c.AuthorizationHeader ≠ lit "" →
              rq.Header.Values (lit "Authorization") = some [c.AuthorizationHeader])
          ∧ (c.AuthorizationHeader = lit "" → rq.Header.Values (lit "Authorization") = none))
      ∧ (∀ body, lib.MarshalIndent request (lit "") c.Indent = Except.ok body →
          lib.urlParse url = none →
          Call.ClientDo (sentRequest c url body) ∈ (Client.Post lib c url request t).calls) := by
  have hshape : ∀ body, lib.MarshalIndent request (lit "") c.Indent = Except.ok body →
      (sentRequest c url body).Method = lit "POST"
        ∧ lib.MarshalIndent request (lit "") c.Indent = Except.ok (sentRequest c url body).Body
        ∧ (sentRequest c url body).Header.Values (lit "Content-Type")
            = some [lit "application/json"]
        ∧ (c.AuthorizationHeader ≠ lit "" →
            (sentRequest c url body).Header.Values (lit "Authorization")
              = some [c.AuthorizationHeader])
        ∧ (c.AuthorizationHeader = lit "" →
            (sentRequest c url body).Header.Values (lit "Authorization") = none) := by
    intro body hm
    have h1 : (lit "Content-Type" == lit "Authorization") = false := by decide
    have h2 : (lit "Authorization" == lit "Content-Type") = false := by decide
    refine ⟨rfl, hm, ?_, ?_, ?_⟩
    · by_cases ha : c.AuthorizationHeader = lit ""
      · simp [sentRequest, ha, Header.Values, ContentType]
      · simp [sentRequest, ha, Header.Values, ContentType, h2]
    · intro ha
      simp [sentRequest, ha, Header.Values]
    · intro ha
      simp [sentRequest, ha, Header.Values, h1]
  constructor
  · intro rq hmem
    obtain ⟨body, hm, _, hrq⟩ := Post_calls_Do lib c url request t rq hmem
    rw [hrq]
    exact hshape body hm
  · intro body hm hu
    exact Post_calls_Do_mem lib c url request t body hm hu

/-- C6, at a client with the authorization header `Bearer xyz` and at a client
without one; the server answers every request with status 200. -/
theorem Post_request_headers_witness :
    Call.ClientDo
        (sentRequest { NewClient (serverClient res200) with AuthorizationHeader := lit "Bearer xyz" }
          sampleURL (lit "7"))
        ∈ (Client.Post sampleLib
            { NewClient (serverClient res200) with AuthorizationHeader := lit "Bearer xyz" }
            sampleURL (some (lit "7")) { X := 0 }).calls
      ∧ (sentRequest { NewClient (serverClient res200) with AuthorizationHeader := lit "Bearer xyz" }
          sampleURL (lit "7")).Header.Values (lit "Authorization") = some [lit "Bearer xyz"]
      ∧ (sentRequest { NewClient (serverClient res200) with AuthorizationHeader := lit "Bearer xyz" }
          sampleURL (lit "7")).Header.Values (lit "Content-Type") = some [lit "application/json"]
      ∧ (sentRequest (NewClient (serverClient res200)) sampleURL (lit "7")).Header.Values
          (lit "Authorization") = none :=
  have hmem := (Post_request_headers sampleLib
    { NewClient (serverClient res200) with AuthorizationHeader := lit "Bearer xyz" }
    sampleURL (some (lit "7")) { X := 0 }).2 (lit "7") rfl rfl
  have hprops := (Post_request_headers sampleLib
    { NewClient (serverClient res200) with AuthorizationHeader := lit "Bearer xyz" }
    sampleURL (some (lit "7")) { X := 0 }).1 _ hmem
  have hmem0 := (Post_request_headers sampleLib (NewClient (serverClient res200))
    sampleURL (some (lit "7")) { X := 0 }).2 (lit "7") rfl rfl
  have hprops0 := (Post_request_headers sampleLib (NewClient (serverClient res200))
    sampleURL (some (lit "7")) { X := 0 }).1 _ hmem0
  ⟨hmem, hprops.2.2.2.1 (by decide), hprops.2.2.1, hprops0.2.2.2.2 rfl⟩

/-- C7: when the JSON codec fails to serialize the request value, `Client.Post`
returns the error `error creating payload: <codec error text>`, having called
nothing but the codec: no request is built, the transport is not invoked, and
the response target is unchanged. -/
theorem Post_payload_error {Req T : Type} (lib : Lib Req T) (c : Client) (url : GoString)
    (request : Req) (t : T) (e : ExtError)
    (h : lib.MarshalIndent request (lit "") c.Indent = Except.error e) :
    (Client.Post lib c url request t).err
        = some (GoError.errorf (lit "error creating payload: " ++ e.text))
      ∧ (Client.Post lib c url request t).target = t
      ∧ (Client.Post lib c url request t).calls = [Call.MarshalIndent (lit "") c.Indent]
      ∧ (∀ rq, Call.ClientDo rq ∉ (Client.Post lib c url request t).calls)
      ∧ (∀ u, Call.ClientGet u ∉ (Client.Post lib c url request t).calls)
      ∧ (∀ m u b, Call.NewRequest m u b ∉ (Client.Post lib c url request t).calls) := by
  rw [Post_marshalErr lib c url request t e h]
  refine ⟨rfl, rfl, rfl, ?_, ?_, ?_⟩ <;> simp

/-- C7, at a request value the encoder rejects. -/
theorem Post_payload_error_witness :
    sampleLib.MarshalIndent none (lit "") (NewClient (serverClient res200)).Indent
        = Except.error marshalErr
      ∧ (Client.Post sampleLib (NewClient (serverClient res200)) sampleURL none { X := 0 }).err
        = some (GoError.errorf (lit "error creating payload: json: unsupported type: chan int"))
      ∧ (Client.Post sampleLib (NewClient (serverClient res200)) sampleURL none { X := 0 }).target
        = { X := 0 }
      ∧ (Client.Post sampleLib (NewClient (serverClient res200)) sampleURL none { X := 0 }).calls
        = [Call.MarshalIndent (lit "") (lit "")] :=
  have thm := Post_payload_error sampleLib (NewClient (serverClient res200)) sampleURL none
    { X := 0 } marshalErr rfl
  ⟨rfl, thm.1, thm.2.1, thm.2.2.1⟩

/-- C8, as stated, fails: with the empty `Indent` of `NewClient`, a request value
whose compact JSON text is `{"a":1}` is sent as `{`, newline, `"a": 1`, newline,
`}`: the newlines and the space after the colon are inserted although no
indentation is. -/
theorem Post_empty_indent_not_compact :
    (NewClient (serverClient res200)).Indent = lit ""
      ∧ sampleLib.Marshal (some (lit "\x7b\"a\":1\x7d")) = Except.ok (lit "\x7b\"a\":1\x7d")
      ∧ (Client.Post sampleLib (NewClient (serverClient res200)) sampleURL
            (some (lit "\x7b\"a\":1\x7d")) { X := 0 }).calls
          = [Call.MarshalIndent (lit "") (lit ""),
             Call.NewRequest (lit "POST") sampleURL (lit "\x7b\n\"a\": 1\n\x7d"),
             Call.ClientDo { Method := lit "POST", URL := sampleURL,
                             Header := [(lit "Content-Type", [lit "application/json"])],
                             Body := lit "\x7b\n\"a\": 1\n\x7d" },
             Call.ReadAll, Call.Unmarshal (some bodyX1), Call.Close]
      ∧ lit "\x7b\n\"a\": 1\n\x7d" ≠ lit "\x7b\"a\":1\x7d" :=
  ⟨rfl, rfl, by decide, by decide⟩

/-- C8, amended: whatever the `Indent`, empty or not, the body `Client.Post` sends
is what `json.MarshalIndent(request, "", Indent)` returns.  For a request value
whose `json.Marshal` text is the compact text of a well-formed JSON value `v` of
nesting depth at most `maxNestingDepth`, every request handed to the transport
carries the indented text of `v` (each element of a non-empty object or array on
a line of its own begun with one `Indent` per nesting level, a space after each
colon), such a request is handed over when the URL parses, and the body is the
compact text exactly when `v` is a scalar, `[]` or `{}`. -/
theorem Post_body_indented {Req T : Type} (marshal : Req → Except ExtError (List UInt8))
    (render : encodingjson.SyntaxError → ExtError)
    (unmarshal : ByteSlice → T → T × Option ExtError) (urlParse : GoString → Option ExtError)
    (c : Client) (url : GoString) (request : Req) (t : T) (v : encodingjson.Json)
    (hw : v.wf = true) (hd : v.depth ≤ encodingjson.maxNestingDepth)
    (hm : marshal request = Except.ok v.compact) :
    (∀ rq, Call.ClientDo rq ∈
          (Client.Post (encodingjson.goLib marshal render unmarshal urlParse) c url request t).calls →
        rq.Body = v.indented (lit "") c.Indent 0 ∧ (rq.Body = v.compact ↔ v.flat = true))
      ∧ (urlParse url = none →
          Call.ClientDo (sentRequest c url (v.indented (lit "") c.Indent 0)) ∈
            (Client.Post (encodingjson.goLib marshal render unmarshal urlParse) c url request
              t).calls) := by
  have hmi : (encodingjson.goLib marshal render unmarshal urlParse).MarshalIndent request
      (lit "") c.Indent = Except.ok (v.indented (lit "") c.Indent 0) := by
    simp only [encodingjson.goLib, encodingjson.MarshalIndent, hm,
      encodingjson.appendIndent_compact (lit "") c.Indent v hw hd]
  constructor
  · intro rq hmem
    obtain ⟨body, h, _, hrq⟩ := Post_calls_Do
      (encodingjson.goLib marshal render unmarshal urlParse) c url request t rq hmem
    rw [hmi] at h
    have hb : rq.Body = v.indented (lit "") c.Indent 0 := by
      rw [hrq, ← Except.ok.inj h]; rfl
    refine ⟨hb, ?_⟩
    rw [hb]
    exact encodingjson.indented_eq_compact_iff (lit "") c.Indent v hw
  · intro hu
    exact Post_calls_Do_mem (encodingjson.goLib marshal render unmarshal urlParse) c url request t
      _ hmi hu

/-- C8, amended, at the default client (empty `Indent`) and the value `{"a":1}`:
the body is `{`, newline, `"a": 1`, newline, `}`, which is not the compact text. -/
theorem Post_body_indented_witness :
    (sampleObject.wf = true ∧ sampleObject.depth ≤ encodingjson.maxNestingDepth
        ∧ sampleMarshal (some sampleObject.compact) = Except.ok sampleObject.compact)
      ∧ sampleObject.compact = lit "\x7b\"a\":1\x7d"
      ∧ Call.ClientDo (sentRequest (NewClient (serverClient res200)) sampleURL
            (lit "\x7b\n\"a\": 1\n\x7d"))
          ∈ (Client.Post sampleLib (NewClient (serverClient res200)) sampleURL
              (some sampleObject.compact) { X := 0 }).calls
      ∧ (sentRequest (NewClient (serverClient res200)) sampleURL
            (lit "\x7b\n\"a\": 1\n\x7d")).Body = lit "\x7b\n\"a\": 1\n\x7d"
      ∧ ¬ ((sentRequest (NewClient (serverClient res200)) sampleURL
            (lit "\x7b\n\"a\": 1\n\x7d")).Body = sampleObject.compact) :=
  have hyp : sampleObject.wf = true ∧ sampleObject.depth ≤ encodingjson.maxNestingDepth
      ∧ sampleMarshal (some sampleObject.compact) = Except.ok sampleObject.compact :=
    ⟨by decide, by decide, rfl⟩
  have thm := Post_body_indented sampleMarshal sampleRender sampleUnmarshal (fun _ => none)
    (NewClient (serverClient res200)) sampleURL (some sampleObject.compact) { X := 0 }
    sampleObject hyp.1 hyp.2.1 hyp.2.2
  have hmem := thm.2 rfl
  ⟨hyp, by decide, hmem, (thm.1 _ hmem).1,
    fun h => absurd ((thm.1 _ hmem).2.mp h) (by decide)⟩

/-- C9: when the transport call fails, `Client.Get` returns the transport's
error value itself, and `Client.Post` returns the new error
`error sending payload: <transport error text>`; in both cases the response is
not parsed (the body is neither read nor decoded), the returned error is not an
`Error` struct, and the target is unchanged. -/
theorem transport_failure {Req T : Type} (lib : Lib Req T) (c : Client) (url : GoString) (t : T)
    (e : ExtError) :
    (c.HTTPClient.Get url = Except.error e →
        Client.Get lib c url t
          = { err := some (GoError.ext e), target := t, calls := [Call.ClientGet url] })
      ∧ (∀ (request : Req) (body : List UInt8),
          lib.MarshalIndent request (lit "") c.Indent = Except.ok body →
          lib.urlParse url = none →
          c.HTTPClient.Do (sentRequest c url body) = Except.error e →
          Client.Post lib c url request t
            = { err := some (GoError.errorf (lit "error sending payload: " ++ e.text)),
                target := t,
                calls := [Call.MarshalIndent (lit "") c.Indent,
                          Call.NewRequest (lit "POST") url body,
                          Call.ClientDo (sentRequest c url body)] }) := by
  constructor
  · intro h; exact Get_transportErr lib c url t e h
  · intro request body hm hu hd
    rw [Post_sendErr lib c url request t body e hm hu hd]; rfl

/-- C9, at a transport that refuses every connection. -/
theorem transport_failure_witness :
    Client.Get sampleLib (NewClient downClient) sampleURL { X := 0 }
        = { err := some (GoError.ext dialErr), target := { X := 0 },
            calls := [Call.ClientGet sampleURL] }
      ∧ Client.Post sampleLib (NewClient downClient) sampleURL (some (lit "7")) { X := 0 }
        = { err := some (GoError.errorf
              (lit "error sending payload: dial tcp 127.0.0.1:80: connect: connection refused")),
            target := { X := 0 },
            calls := [Call.MarshalIndent (lit "") (lit ""),
                      Call.NewRequest (lit "POST") sampleURL (lit "7"),
                      Call.ClientDo (sentRequest (NewClient downClient) sampleURL (lit "7"))] } :=
  ⟨(transport_failure sampleLib (NewClient downClient) sampleURL { X := 0 } dialErr).1 rfl,
   (transport_failure sampleLib (NewClient downClient) sampleURL { X := 0 } dialErr).2
      (some (lit "7")) (lit "7") rfl rfl rfl⟩

end jsonclient
